import Mathlib

/-!
Shallow embedding of the y4mlib Go package (src/y4mlib.go): a reader/writer
for the YUV4MPEG2 uncompressed-video container.  Byte strings are `List Nat`
(one Nat per byte), Go `int` is `Int` (arbitrary precision; the claims never
depend on 64-bit overflow), Go integer division is `Int.tdiv` (truncation
toward zero) and a division by zero — a run-time panic in Go — is modelled
as an explicit `Err.panicDivZero` outcome.  The single seekable file with
its cursor is `FS`; every operation that touches the file returns its
result together with the file state at the moment the call returns (or, for
a modelled panic, at the moment the panic fires), so that cursor-position
claims are statable on every exit path.
-/

namespace Y4M

/-- Byte strings: one natural number per byte. -/
abbrev Bytes := List Nat

/-- ASCII bytes of a Lean string literal, used to transcribe Go string
literals such as "FRAME" and the chroma tags. -/
def strBytes (s : String) : Bytes := s.toList.map Char.toNat

/-- Errors and modelled run-time panics.  Constructors starting with
`panic` model Go run-time panics (slice bounds, division by zero, negative
make size); `eof` is io.EOF, `unexpectedEOF` is io.ErrUnexpectedEOF,
`diverge` is an artifact of the fuelled loop in `countFrames` standing for
non-termination of the Go for-loop and is unreachable on the inputs the
theorems below consider. -/
inductive Err where
  | eof
  | unexpectedEOF
  | invalidFormat
  | unrecognizedField (key : Nat)
  | atoiFail
  | ratioFail
  | emptyFrameHeader
  | frameMagicParse
  | frameMagicSkip (found : Bytes)
  | iFieldLen
  | iFieldPresentation (c : Nat)
  | iFieldTemporal (c : Nat)
  | iFieldSpatial (c : Nat)
  | geomWidth (requested orig : Int)
  | geomHeight (requested orig : Int)
  | panicSliceOOB
  | panicDivZero
  | panicMakeSlice
  | seekNegative
  | diverge
deriving DecidableEq, Repr

/-- Ratio: numerator and denominator (Go struct with int fields). -/
structure Ratio where
  n : Int
  d : Int
deriving DecidableEq, Repr

/-- Stream: the parsed stream-header state of src/y4mlib.go's `Stream`.
The `*os.File` handle is kept separately as an `FS` value.  The Go
`*Ratio` pointers may be nil (e.g. on a stream made by `NewStream` before
the caller populates them), modelled by `Option`; `Header()` prints a nil
pointer as the fmt verb does. -/
structure Stream where
  width : Int
  height : Int
  frameRate : Option Ratio
  interlacing : Bytes
  sampleAspectRatio : Option Ratio
  chroma : Bytes
  metadata : List Bytes
  xss : Int
  yss : Int
  originalHeader : Bytes
deriving DecidableEq, Repr

/-- IField of a frame header (three one-byte subfield codes). -/
structure IField where
  spatial : Nat
  temporal : Nat
  presentation : Nat
deriving DecidableEq, Repr

/-- FrameHeader: parsed frame-header line. -/
structure FrameHeader where
  magicString : Bytes
  i : Option IField
  metadata : List Bytes
  raw : Bytes
deriving DecidableEq, Repr

/-- Frame: decoded planes plus per-frame copies of the geometry fields. -/
structure Frame where
  header : FrameHeader
  width : Int
  height : Int
  chroma : Bytes
  y : Bytes
  cb : Bytes
  cr : Bytes
  alpha : Bytes
deriving DecidableEq, Repr

/-- FS: the seekable file resource — its whole byte content and the single
read/write cursor. -/
structure FS where
  data : Bytes
  pos : Nat
deriving DecidableEq, Repr

/-- Bytes of the file that lie at or after the cursor. -/
def remBytes (fs : FS) : Bytes := fs.data.drop fs.pos

/-- Subsampling-factor table `xSubsamplingFactor` (Go map; a missing key
yields the zero value 0, which is how "mono", "444alpha" and unknown tags
come out). -/
def xFactorTab (c : Bytes) : Int :=
  if c = strBytes "444" then 1
  else if c = strBytes "422" then 2
  else if c = strBytes "411" then 4
  else if c = strBytes "420jpeg" then 2
  else if c = strBytes "420mpeg2" then 2
  else if c = strBytes "420paldv" then 2
  else 0

/-- Subsampling-factor table `ySubsamplingFactor`. -/
def yFactorTab (c : Bytes) : Int :=
  if c = strBytes "444" then 1
  else if c = strBytes "422" then 1
  else if c = strBytes "411" then 1
  else if c = strBytes "420jpeg" then 2
  else if c = strBytes "420mpeg2" then 2
  else if c = strBytes "420paldv" then 2
  else 0

/-!  bufio model.  Each traversal call wraps the file in a fresh
`bufio.NewReader` (buffer size 4096) and calls `ReadBytes('\n')`: the
reader pulls 4096-byte chunks from the file (a regular-file `Read` returns
`min(4096, bytes-to-EOF)`) until the pulled region holds a newline or the
file is exhausted; the returned line is everything up to and including the
first newline, and the error is io.EOF exactly when no newline was found.
The file cursor ends up past the whole pulled region; the source's
`Seek(-Buffered(), 1)` — executed only on success paths — moves it back to
just after the line. -/

/-- Number of bytes `ReadBytes('\n')` pulls from the file when `rem` bytes
remain at the cursor. -/
def pulledLen (rem : Bytes) : Nat :=
  match rem.findIdx? (· == 10) with
  | some i => min rem.length (4096 * ((i + 4096) / 4096))
  | none => rem.length

/-- One `bufio.ReadBytes('\n')` call: the line read (up to and including
the first newline), whether a newline was found (false means the call
returned io.EOF), and the file state after the buffer fills. -/
def bufReadLine (fs : FS) : Bytes × Bool × FS :=
  match (remBytes fs).findIdx? (· == 10) with
  | some i => ((remBytes fs).take (i + 1), true, { fs with pos := fs.pos + pulledLen (remBytes fs) })
  | none => (remBytes fs, false, { fs with pos := fs.pos + pulledLen (remBytes fs) })

/-- Relative seek, `file.Seek(off, 1)`: fails on a negative target, may
move past EOF. -/
def seekRel (fs : FS) (off : Int) : Except Err Unit × FS :=
  if (fs.pos : Int) + off < 0 then (.error .seekNegative, fs)
  else (.ok (), { fs with pos := ((fs.pos : Int) + off).toNat })

/-- LumaPlaneSize: `s.Height * s.Width`. -/
def lumaPlaneSize (s : Stream) : Int := s.height * s.width

/-- ChromaPlaneSize: 0 for "mono", else
`s.Width * s.Height / s.XSubsamplingFactor / s.YSubsamplingFactor`
(two truncated integer divisions, left to right); `none` models the Go
divide-by-zero panic when a stored factor is 0. -/
def chromaPlaneSize (s : Stream) : Option Int :=
  if s.chroma = strBytes "mono" then some 0
  else if s.xss = 0 then none
  else if s.yss = 0 then none
  else some (((s.width * s.height).tdiv s.xss).tdiv s.yss)

/-- AlphaPlaneSize: `s.Width * s.Height` for chroma "444alpha", else 0. -/
def alphaPlaneSize (s : Stream) : Int :=
  if s.chroma = strBytes "444alpha" then s.width * s.height else 0

/-- FrameImageDataSize: luma + 2 chroma + alpha plane bytes (`none` when
ChromaPlaneSize panics). -/
def frameImageDataSize (s : Stream) : Option Int :=
  match chromaPlaneSize s with
  | none => none
  | some c => some (lumaPlaneSize s + 2 * c + alphaPlaneSize s)

/-- ToFirstFrame: seek to 0, read the header line, reposition to just
after it.  On the no-newline error path the cursor stays where the buffer
fill left it. -/
def toFirstFrame (fs : FS) : Except Err Unit × FS :=
  match bufReadLine { fs with pos := 0 } with
  | (b, ok, fs1) =>
    if ok then (.ok (), { fs1 with pos := b.length }) else (.error .eof, fs1)

/-- SkipFrameHeader: read one line; `b[0:5]` (a panic when the line is
shorter than 5 bytes) must equal "FRAME", else the error quotes `b[0:15]`
(a panic when the line is shorter than 15 bytes).  Only the success path
seeks back to just after the line. -/
def skipFrameHeader (fs : FS) : Except Err Unit × FS :=
  match bufReadLine fs with
  | (b, ok, fs1) =>
    if !ok then (.error .eof, fs1)
    else if b.length < 5 then (.error .panicSliceOOB, fs1)
    else if b.take 5 = strBytes "FRAME" then (.ok (), { fs1 with pos := fs.pos + b.length })
    else if b.length < 15 then (.error .panicSliceOOB, fs1)
    else (.error (.frameMagicSkip (b.take 15)), fs1)

/-- SkipFrame: skip the frame header, then seek forward by
FrameImageDataSize without reading the plane bytes. -/
def skipFrame (s : Stream) (fs : FS) : Except Err Unit × FS :=
  match skipFrameHeader fs with
  | (.error e, fs1) => (.error e, fs1)
  | (.ok _, fs1) =>
    match frameImageDataSize s with
    | none => (.error .panicDivZero, fs1)
    | some sz => seekRel fs1 sz

/-- The for-loop of CountFrames, with fuel standing in for the unbounded
Go loop (`Err.diverge` marks fuel exhaustion; the Go loop genuinely fails
to terminate when FrameImageDataSize is negative, and the fuel chosen in
`countFrames` is ample for every terminating run). -/
def countLoop (s : Stream) : Nat → FS → Nat → Except Err Nat × FS
  | 0, fs, _ => (.error .diverge, fs)
  | fuel + 1, fs, acc =>
    match skipFrame s fs with
    | (.error .eof, fs1) => (.ok acc, fs1)
    | (.error e, fs1) => (.error e, fs1)
    | (.ok _, fs1) => countLoop s fuel fs1 (acc + 1)

/-- CountFrames: save the cursor, rewind, skip frames until io.EOF, then
restore the saved cursor — but, exactly as in the source, only on the
success path: every error exit returns with the cursor wherever the
failing operation left it. -/
def countFrames (s : Stream) (fs : FS) : Except Err Nat × FS :=
  let initPos := fs.pos
  match toFirstFrame { fs with pos := 0 } with
  | (.error e, fs1) => (.error e, fs1)
  | (.ok _, fs1) =>
    match countLoop s (fs.data.length + 2) fs1 0 with
    | (.error e, fs2) => (.error e, fs2)
    | (.ok n, fs2) => (.ok n, { fs2 with pos := initPos })

/-!  Header codec. -/

/-- Whitespace as `bytes.Fields` sees it for ASCII input (unicode.IsSpace
on bytes below 128: space, tab, newline, vertical tab, form feed,
carriage return). -/
def isSpace (c : Nat) : Bool :=
  c = 32 || c = 9 || c = 10 || c = 11 || c = 12 || c = 13

/-- Accumulator worker for `fields`. -/
def fieldsAux : Bytes → Bytes → List Bytes
  | [], acc => if acc = [] then [] else [acc.reverse]
  | c :: rest, acc =>
    if isSpace c then
      if acc = [] then fieldsAux rest [] else acc.reverse :: fieldsAux rest []
    else fieldsAux rest (c :: acc)

/-- bytes.Fields: split around runs of whitespace; no empty fields. -/
def fields (b : Bytes) : List Bytes := fieldsAux b []

/-- ASCII decimal digit. -/
def isDigit (c : Nat) : Bool := 48 ≤ c && c ≤ 57

/-- The value of a run of decimal digit bytes, most significant first. -/
def digitsToNat (b : Bytes) : Nat := b.foldl (fun a c => a * 10 + (c - 48)) 0

/-- Digit-run part of strconv.Atoi: nonempty and all digits, else error. -/
def atoiCore (b : Bytes) : Except Err Nat :=
  if b ≠ [] ∧ b.all isDigit then .ok (digitsToNat b) else .error .atoiFail

/-- strconv.Atoi: optional single '+' 43 or '-' 45 sign, then digits
(overflow of 64-bit int is not modelled; no claim depends on it). -/
def atoi (b : Bytes) : Except Err Int :=
  match b with
  | [] => .error .atoiFail
  | c :: rest =>
    if c = 45 then (atoiCore rest).map fun n => -(n : Int)
    else if c = 43 then (atoiCore rest).map fun n => (n : Int)
    else (atoiCore (c :: rest)).map fun n => (n : Int)

/-- strings.Split on one separator byte (keeps empty parts, as Go does). -/
def splitOnByte (sep : Nat) : Bytes → List Bytes
  | [] => [[]]
  | c :: rest =>
    if c = sep then [] :: splitOnByte sep rest
    else
      match splitOnByte sep rest with
      | [] => [[c]]
      | h :: t => (c :: h) :: t

/-- stringToRatio: split on ':', require exactly two parts, Atoi each. -/
def stringToRatio (b : Bytes) : Except Err Ratio :=
  match splitOnByte 58 b with
  | [ns, ds] =>
    match atoi ns with
    | .error e => .error e
    | .ok n =>
      match atoi ds with
      | .error e => .error e
      | .ok d => .ok ⟨n, d⟩
  | _ => .error .ratioFail

/-- One iteration of ParseHeader's field loop: dispatch on the field's
first byte (`'Y'` 89 ignored, `'W'` 87 width, `'H'` 72 height, `'F'` 70
frame rate, `'I'` 73 interlacing, `'A'` 65 aspect ratio, `'C'` 67 chroma,
`'X'` 88 metadata, anything else a format error).  An empty field cannot
come out of `fields`; indexing it would panic in Go. -/
def applyField (s : Stream) (f : Bytes) : Except Err Stream :=
  match f with
  | [] => .error .panicSliceOOB
  | key :: val =>
    if key = 89 then .ok s
    else if key = 87 then (atoi val).map fun n => { s with width := n }
    else if key = 72 then (atoi val).map fun n => { s with height := n }
    else if key = 70 then (stringToRatio val).map fun r => { s with frameRate := some r }
    else if key = 73 then .ok { s with interlacing := val }
    else if key = 65 then (stringToRatio val).map fun r => { s with sampleAspectRatio := some r }
    else if key = 67 then .ok { s with chroma := val }
    else if key = 88 then .ok { s with metadata := s.metadata ++ [val] }
    else .error (.unrecognizedField key)

/-- ParseHeader's field loop over all whitespace-separated fields. -/
def parseFields : List Bytes → Stream → Except Err Stream
  | [], s => .ok s
  | f :: fl, s =>
    match applyField s f with
    | .error e => .error e
    | .ok s' => parseFields fl s'

/-- The Stream a fresh `Open` starts from, after ParseHeader stores the
header line and sets the defaults (chroma "420jpeg", interlacing "?",
rates 0:0; width/height stay at Go's zero value). -/
def initStream (line : Bytes) : Stream :=
  { width := 0, height := 0, frameRate := some ⟨0, 0⟩,
    interlacing := strBytes "?", sampleAspectRatio := some ⟨0, 0⟩,
    chroma := strBytes "420jpeg", metadata := [], xss := 0, yss := 0,
    originalHeader := line }

/-- ParseHeader's pure core on the header line (everything through the
first newline): defaults, then the field loop.  The first token
"YUV4MPEG2" starts with 'Y' and is ignored by the loop. -/
def parseHeaderLine (line : Bytes) : Except Err Stream :=
  parseFields (fields line) (initStream line)

/-- ParseHeader at the stream level: seek to 0, read the first line,
parse it, and leave the cursor at the end of the header line. -/
def parseHeader (fs : FS) : Except Err Stream × FS :=
  match bufReadLine { fs with pos := 0 } with
  | (b, ok, fs1) =>
    if !ok then (.error .eof, fs1)
    else
      match parseHeaderLine b with
      | .error e => (.error e, fs1)
      | .ok s => (.ok s, { fs1 with pos := b.length })

/-- Open: check the 9-byte magic "YUV4MPEG2", parse the header, then look
the subsampling factors up from the chroma tag (0 for a tag the tables do
not hold). -/
def openStream (data : Bytes) : Except Err Stream × FS :=
  if data = [] then (.error .eof, ⟨data, 0⟩)
  else if data.take 9 ++ List.replicate (9 - (data.take 9).length) 0 ≠ strBytes "YUV4MPEG2" then
    (.error .invalidFormat, ⟨data, min 9 data.length⟩)
  else
    match parseHeader ⟨data, 0⟩ with
    | (.error e, fs1) => (.error e, fs1)
    | (.ok s, fs1) =>
      (.ok { s with xss := xFactorTab s.chroma, yss := yFactorTab s.chroma }, fs1)

/-!  Header serialization (`Stream.Header`). -/

/-- Decimal digit bytes of a positive number, least significant first
(`fuel ≥ n` makes the recursion total; `fuel = n` is always enough since a
number has no more decimal digits than its own value). -/
def natDigitsRev (fuel n : Nat) : Bytes :=
  match fuel with
  | 0 => []
  | fuel + 1 => if n = 0 then [] else (n % 10 + 48) :: natDigitsRev fuel (n / 10)

/-- Decimal digit bytes of a natural number, most significant first. -/
def natDigits (n : Nat) : Bytes :=
  if n = 0 then [48] else (natDigitsRev n n).reverse

/-- fmt "%d" of a Go int. -/
def itoa (n : Int) : Bytes :=
  if n < 0 then 45 :: natDigits (-n).toNat else natDigits n.toNat

/-- Ratio.String: "N:D"; a nil *Ratio prints as fmt prints it. -/
def ratioBytes : Option Ratio → Bytes
  | some r => itoa r.n ++ 58 :: itoa r.d
  | none => strBytes "<nil>"

/-- The space-separated tokens Header() writes after the magic, in its
fixed order W, H, C, I, F, A, then the metadata entries as X fields. -/
def headerTokens (s : Stream) : List Bytes :=
  [87 :: itoa s.width, 72 :: itoa s.height, 67 :: s.chroma, 73 :: s.interlacing,
   70 :: ratioBytes s.frameRate, 65 :: ratioBytes s.sampleAspectRatio]
  ++ s.metadata.map (88 :: ·)

/-- Header: the serialized stream-header line — magic, the tokens each
preceded by one space, and a final newline. -/
def headerBytes (s : Stream) : Bytes :=
  strBytes "YUV4MPEG2" ++ (headerTokens s).flatMap (32 :: ·) ++ [10]

/-- The header line without its final newline (so `headerBytes s =
headerCore s ++ [10]` definitionally). -/
def headerCore (s : Stream) : Bytes :=
  strBytes "YUV4MPEG2" ++ (headerTokens s).flatMap (32 :: ·)

/-!  Frame-header codec. -/

/-- Validation of a frame header's 3-character I field: presentation in
t T b B 1 2 3, temporal in p i, spatial in p i ?, each wrong byte its own
error.  The length check precedes the subfield reads. -/
def parseIField (val : Bytes) : Except Err IField :=
  if h : val.length = 3 then
    let x := val.get ⟨0, by omega⟩
    if x ≠ 116 ∧ x ≠ 84 ∧ x ≠ 98 ∧ x ≠ 66 ∧ x ≠ 49 ∧ x ≠ 50 ∧ x ≠ 51 then
      .error (.iFieldPresentation x)
    else
      let y := val.get ⟨1, by omega⟩
      if y ≠ 112 ∧ y ≠ 105 then .error (.iFieldTemporal y)
      else
        let z := val.get ⟨2, by omega⟩
        if z ≠ 112 ∧ z ≠ 105 ∧ z ≠ 63 then .error (.iFieldSpatial z)
        else .ok ⟨z, y, x⟩
  else .error .iFieldLen

/-- ParseFrameHeader's field loop: `'I'` 73 validates and stores the I
field, `'X'` 88 appends frame metadata, any other tag is ignored. -/
def parseFrameFields : List Bytes → FrameHeader → Except Err FrameHeader
  | [], h => .ok h
  | f :: fl, h =>
    match f with
    | [] => .error .panicSliceOOB
    | key :: val =>
      if key = 73 then
        match parseIField val with
        | .error e => .error e
        | .ok i => parseFrameFields fl { h with i := some i }
      else if key = 88 then parseFrameFields fl { h with metadata := h.metadata ++ [val] }
      else parseFrameFields fl h

/-- ParseFrameHeader's pure core on the header line: the first
whitespace-delimited token must equal "FRAME" (an empty field list is its
own error), then the field loop; the raw line is retained verbatim. -/
def parseFrameHeaderLine (hs : Bytes) : Except Err FrameHeader :=
  match fields hs with
  | [] => .error .emptyFrameHeader
  | f0 :: fl =>
    if f0 = strBytes "FRAME" then
      parseFrameFields fl { magicString := f0, i := none, metadata := [], raw := hs }
    else .error .frameMagicParse

/-- ParseFrameHeader at the stream level: read one line, parse it, and —
on the success path only — seek back to just after the line. -/
def parseFrameHeader (fs : FS) : Except Err FrameHeader × FS :=
  match bufReadLine fs with
  | (hs, ok, fs1) =>
    if !ok then (.error .eof, fs1)
    else
      match parseFrameHeaderLine hs with
      | .error e => (.error e, fs1)
      | .ok h => (.ok h, { fs1 with pos := fs.pos + hs.length })

/-- grabPlane: size 0 returns a nil buffer without touching the file; a
negative size would make Go's `make` panic; otherwise io.ReadFull — io.EOF
when no byte is available, io.ErrUnexpectedEOF after a short read (the
cursor advances past the bytes that were read). -/
def grabPlane (fs : FS) (size : Int) : Except Err Bytes × FS :=
  if size = 0 then (.ok [], fs)
  else if size < 0 then (.error .panicMakeSlice, fs)
  else if (remBytes fs).length = 0 then (.error .eof, fs)
  else if (remBytes fs).length < size.toNat then
    (.error .unexpectedEOF, { fs with pos := fs.pos + (remBytes fs).length })
  else (.ok ((remBytes fs).take size.toNat), { fs with pos := fs.pos + size.toNat })

/-- ParseFrame: frame header, then the four planes in order Y, Cb, Cr,
Alpha, each sized from the stream's current geometry (ChromaPlaneSize is
evaluated per chroma read, both calls returning the same value), and the
frame stamped with the stream's width, height and chroma. -/
def parseFrame (s : Stream) (fs : FS) : Except Err Frame × FS :=
  match parseFrameHeader fs with
  | (.error e, fs1) => (.error e, fs1)
  | (.ok h, fs1) =>
    match grabPlane fs1 (lumaPlaneSize s) with
    | (.error e, fs2) => (.error e, fs2)
    | (.ok y, fs2) =>
      match chromaPlaneSize s with
      | none => (.error .panicDivZero, fs2)
      | some cs =>
        match grabPlane fs2 cs with
        | (.error e, fs3) => (.error e, fs3)
        | (.ok cb, fs3) =>
          match grabPlane fs3 cs with
          | (.error e, fs4) => (.error e, fs4)
          | (.ok cr, fs4) =>
            match grabPlane fs4 (alphaPlaneSize s) with
            | (.error e, fs5) => (.error e, fs5)
            | (.ok a, fs5) =>
              (.ok { header := h, width := s.width, height := s.height,
                     chroma := s.chroma, y := y, cb := cb, cr := cr, alpha := a }, fs5)

/-!  Write path (fresh output containers: the cursor sits at the end of
the data, so each `Write` appends). -/

/-- One `file.Write` on a fresh output container. -/
def writeBytes (fs : FS) (b : Bytes) : FS :=
  { data := fs.data ++ b, pos := fs.pos + b.length }

/-- WriteHeader: emit the Header() serialization. -/
def writeHeader (s : Stream) (fs : FS) : FS := writeBytes fs (headerBytes s)

/-- WriteFrameHeader: emit the frame's raw header bytes verbatim. -/
def writeFrameHeader (f : Frame) (fs : FS) : FS := writeBytes fs f.header.raw

/-- WriteFrameData: emit the four plane buffers in order; an empty buffer
contributes no bytes. -/
def writeFrameData (f : Frame) (fs : FS) : FS :=
  writeBytes (writeBytes (writeBytes (writeBytes fs f.y) f.cb) f.cr) f.alpha

/-!  Crop. -/

/-- A Go slice expression `l[a:b]` (the buffers here have cap = len, so
the bounds are 0 ≤ a ≤ b ≤ len, anything else a run-time panic). -/
def goSlice (l : Bytes) (a b : Int) : Except Err Bytes :=
  if 0 ≤ a ∧ a ≤ b ∧ b ≤ (l.length : Int) then .ok ((l.take b.toNat).drop a.toNat)
  else .error .panicSliceOOB

/-- The luma/alpha row loop of Crop: `n` rows starting at output row `y`,
row start `(y + yOffset) * width + xOffset`, row width `w`. -/
def cropLumaRows (src : Bytes) (width w xo yo : Int) : Nat → Int → Except Err Bytes
  | 0, _ => .ok []
  | n + 1, y =>
    match goSlice src ((y + yo) * width + xo) ((y + yo) * width + xo + w) with
    | .error e => .error e
    | .ok row =>
      match cropLumaRows src width w xo yo n (y + 1) with
      | .error e => .error e
      | .ok rest => .ok (row ++ rest)

/-- The chroma row loop of Crop: `yt = y + yOffset/yss`,
`x0 = yt*width/xss + xOffset/xss`, `x1 = x0 + w/xss` (Go truncated
division; the zero-divisor case is caught before this loop runs). -/
def cropChromaRows (src : Bytes) (width xss yss w xo yo : Int) : Nat → Int → Except Err Bytes
  | 0, _ => .ok []
  | n + 1, y =>
    match goSlice src (((y + yo.tdiv yss) * width).tdiv xss + xo.tdiv xss)
        (((y + yo.tdiv yss) * width).tdiv xss + xo.tdiv xss + w.tdiv xss) with
    | .error e => .error e
    | .ok row =>
      match cropChromaRows src width xss yss w xo yo n (y + 1) with
      | .error e => .error e
      | .ok rest => .ok (row ++ rest)

/-- Crop, returning the Go error (or modelled panic) together with the
frame's state at the moment the call returns: the two geometry checks come
before any mutation; then the luma plane is rebuilt and assigned; then the
subsampling factors are looked up (a zero factor makes the chroma
capacity expression `w/xss*h/yss` panic, with the luma already replaced);
then both chroma planes are rebuilt (the source interleaves the Cb and Cr
row copies inside one loop; as no state changes until both finish, running
the Cb rows then the Cr rows returns the same error and the same frame);
then the alpha plane if present; width and height are updated last. -/
def crop (f : Frame) (w h xo yo : Int) : Option Err × Frame :=
  if w + xo > f.width then (some (.geomWidth (w + xo) f.width), f)
  else if h + yo > f.height then (some (.geomHeight (h + yo) f.height), f)
  else if w * h < 0 then (some .panicMakeSlice, f)
  else
    match cropLumaRows f.y f.width w xo yo h.toNat 0 with
    | .error e => (some e, f)
    | .ok newY =>
      if xFactorTab f.chroma = 0 ∨ yFactorTab f.chroma = 0 then
        (some .panicDivZero, { f with y := newY })
      else
        match cropChromaRows f.cb f.width (xFactorTab f.chroma) (yFactorTab f.chroma) w xo yo
            (h.tdiv (yFactorTab f.chroma)).toNat 0 with
        | .error e => (some e, { f with y := newY })
        | .ok newCb =>
          match cropChromaRows f.cr f.width (xFactorTab f.chroma) (yFactorTab f.chroma) w xo yo
              (h.tdiv (yFactorTab f.chroma)).toNat 0 with
          | .error e => (some e, { f with y := newY })
          | .ok newCr =>
            if 0 < f.alpha.length then
              match cropLumaRows f.alpha f.width w xo yo h.toNat 0 with
              | .error e => (some e, { f with y := newY, cb := newCb, cr := newCr })
              | .ok newA =>
                (none,
                  { f with
                      y := newY, cb := newCb, cr := newCr, alpha := newA,
                      width := w, height := h })
            else (none, { f with y := newY, cb := newCb, cr := newCr, width := w, height := h })

/-!  Frame-level plane geometry: the PlaneGeometry values for a frame's
own width, height and chroma tag, the subsampling factors derived from the
chroma through the tables (the stream stores the same lookups). -/

/-- Luma plane size for given dimensions. -/
def lumaSizeOf (w h : Int) : Int := h * w

/-- Chroma plane size for given dimensions and chroma tag, factors from
the tables; `none` models the divide-by-zero panic of a zero factor. -/
def chromaSizeOf (w h : Int) (c : Bytes) : Option Int :=
  if c = strBytes "mono" then some 0
  else if xFactorTab c = 0 then none
  else if yFactorTab c = 0 then none
  else some (((w * h).tdiv (xFactorTab c)).tdiv (yFactorTab c))

/-- Alpha plane size for given dimensions and chroma tag. -/
def alphaSizeOf (w h : Int) (c : Bytes) : Int :=
  if c = strBytes "444alpha" then w * h else 0

/-- The buffer-length invariant of a decoded frame: each plane's length
is the PlaneGeometry value for the frame's own width, height and chroma. -/
def frameInvariant (f : Frame) : Prop :=
  (f.y.length : Int) = lumaSizeOf f.width f.height ∧
  chromaSizeOf f.width f.height f.chroma = some (f.cb.length : Int) ∧
  chromaSizeOf f.width f.height f.chroma = some (f.cr.length : Int) ∧
  (f.alpha.length : Int) = alphaSizeOf f.width f.height f.chroma

instance (f : Frame) : Decidable (frameInvariant f) := by
  unfold frameInvariant; infer_instance

/-- Crop's row extraction as the spec describes it, one output row at a
time: output row `y` is the `w`-byte segment of source row `y + yOffset`
starting at column `xOffset`, the pre-crop `width` being the source
stride. -/
def cropRowsSpecAux (src : Bytes) (width w xo yo : Int) : Nat → Int → Bytes
  | 0, _ => []
  | n + 1, y =>
    (src.drop ((y + yo) * width + xo).toNat).take w.toNat
      ++ cropRowsSpecAux src width w xo yo n (y + 1)

/-- Crop's row extraction as the spec describes it: `h` rows starting at
output row 0. -/
def cropRowsSpec (src : Bytes) (width w xo yo : Int) (h : Nat) : Bytes :=
  cropRowsSpecAux src width w xo yo h 0

/-- No byte of `b` is whitespace (every token `bytes.Fields` produces
satisfies this, and every serialized header token must). -/
def noSpace (b : Bytes) : Prop := ∀ c ∈ b, isSpace c = false

instance (b : Bytes) : Decidable (noSpace b) := by
  unfold noSpace; infer_instance

/-- The shape every Stream coming out of the header parser has: the
string-valued fields hold whitespace-free tokens and the two ratio
pointers are populated — exactly what makes `Header()` serializable and
re-parseable. -/
def hdrInv (s : Stream) : Prop :=
  noSpace s.chroma ∧ noSpace s.interlacing ∧ (∀ m ∈ s.metadata, noSpace m) ∧
  (∃ r, s.frameRate = some r) ∧ (∃ r, s.sampleAspectRatio = some r)

/-!  Concrete example data used by the evaluation theorems below. -/

/-- Header line of a 2-by-2 chroma-444 stream. -/
def hdr444 : Bytes := strBytes "YUV4MPEG2 W2 H2 C444\n"

/-- One well-formed frame record of that stream: header line plus
4 + 4 + 4 plane bytes. -/
def frameRec444 : Bytes := strBytes "FRAME\n" ++ List.replicate 12 7

/-- The Stream `Open` produces for `hdr444`. -/
def stream444 : Stream :=
  { width := 2, height := 2, frameRate := some ⟨0, 0⟩,
    interlacing := strBytes "?", sampleAspectRatio := some ⟨0, 0⟩,
    chroma := strBytes "444", metadata := [], xss := 1, yss := 1,
    originalHeader := hdr444 }

/-- A two-frame well-formed stream. -/
def goodData444 : Bytes := hdr444 ++ frameRec444 ++ frameRec444

/-- A stream whose first frame record is a garbage line. -/
def badData444 : Bytes := hdr444 ++ strBytes "GARBAGE_GARBAGE_\n"

/-- A stream truncated right after a frame header: the frame began but
none of its 12 plane bytes are present. -/
def truncData444 : Bytes := hdr444 ++ strBytes "FRAME\n"

/-- A stream truncated inside the luma plane: 2 of 12 plane bytes. -/
def partialData444 : Bytes := hdr444 ++ strBytes "FRAME\n" ++ [1, 2]

/-- A header with a chroma tag outside the subsampling tables. -/
def fooData : Bytes := strBytes "YUV4MPEG2 W2 H2 Cfoo\n"

/-- The Stream `Open` produces for `fooData`. -/
def fooStream : Stream :=
  { width := 2, height := 2, frameRate := some ⟨0, 0⟩,
    interlacing := strBytes "?", sampleAspectRatio := some ⟨0, 0⟩,
    chroma := strBytes "foo", metadata := [], xss := 0, yss := 0,
    originalHeader := fooData }

/-- A parsed frame header whose raw line is the bare "FRAME" line. -/
def plainFrameHeader : FrameHeader :=
  { magicString := strBytes "FRAME", i := none, metadata := [],
    raw := strBytes "FRAME\n" }

/-- A well-formed 4-by-2 chroma-444 frame with recognizable luma bytes. -/
def frame444x42 : Frame :=
  { header := plainFrameHeader, width := 4, height := 2, chroma := strBytes "444",
    y := [0, 1, 2, 3, 4, 5, 6, 7], cb := [10, 11, 12, 13, 14, 15, 16, 17],
    cr := [20, 21, 22, 23, 24, 25, 26, 27], alpha := [] }

/-- A 4-by-4 chroma-420jpeg stream with one frame (16 + 4 + 4 plane
bytes). -/
def data420 : Bytes :=
  strBytes "YUV4MPEG2 W4 H4 C420jpeg\n" ++ strBytes "FRAME\n"
  ++ List.replicate 16 1 ++ [31, 32, 33, 34] ++ [41, 42, 43, 44]

/-- The Stream `Open` produces for `data420`. -/
def stream420 : Stream :=
  { width := 4, height := 4, frameRate := some ⟨0, 0⟩,
    interlacing := strBytes "?", sampleAspectRatio := some ⟨0, 0⟩,
    chroma := strBytes "420jpeg", metadata := [], xss := 2, yss := 2,
    originalHeader := strBytes "YUV4MPEG2 W4 H4 C420jpeg\n" }

/-- The Frame ParseFrame yields on `data420`. -/
def frame420 : Frame :=
  { header := plainFrameHeader, width := 4, height := 4, chroma := strBytes "420jpeg",
    y := List.replicate 16 1, cb := [31, 32, 33, 34], cr := [41, 42, 43, 44], alpha := [] }

/-- The frame `frame420` becomes after `Crop(3, 3, 0, 0)`. -/
def frame420cropped : Frame :=
  { header := plainFrameHeader, width := 3, height := 3, chroma := strBytes "420jpeg",
    y := List.replicate 9 1, cb := [31], cr := [41], alpha := [] }

/-- The frame `frame420` becomes after the subsampling-aligned
`Crop(2, 2, 0, 0)`. -/
def frame420c22 : Frame :=
  { header := plainFrameHeader, width := 2, height := 2, chroma := strBytes "420jpeg",
    y := List.replicate 4 1, cb := [31], cr := [41], alpha := [] }

/-- An output stream with chroma "444alpha" (the caller populated every
field, as the write path expects). -/
def alphaOutStream : Stream :=
  { width := 1, height := 1, frameRate := some ⟨25, 1⟩,
    interlacing := strBytes "?", sampleAspectRatio := some ⟨1, 1⟩,
    chroma := strBytes "444alpha", metadata := [], xss := 0, yss := 0,
    originalHeader := [] }

/-- A fully coherent 1-by-1 chroma-444alpha frame (each plane one byte,
as PlaneGeometry prescribes for that tag). -/
def alphaFrame : Frame :=
  { header := plainFrameHeader, width := 1, height := 1, chroma := strBytes "444alpha",
    y := [7], cb := [8], cr := [9], alpha := [6] }

/-- An output stream with chroma "444" for the round-trip witness. -/
def outStream444 : Stream :=
  { width := 2, height := 1, frameRate := some ⟨25, 1⟩,
    interlacing := strBytes "?", sampleAspectRatio := some ⟨0, 0⟩,
    chroma := strBytes "444", metadata := [strBytes "k=v"], xss := 1, yss := 1,
    originalHeader := [] }

/-- A 2-by-1 chroma-444 frame matching `outStream444`. -/
def outFrame444 : Frame :=
  { header := plainFrameHeader, width := 2, height := 1, chroma := strBytes "444",
    y := [1, 2], cb := [3, 4], cr := [5, 6], alpha := [] }

/-- A header line exercising every field kind. -/
def fullHdrLine : Bytes := strBytes "YUV4MPEG2 W10 H20 F25:1 Ip A1:1 C422 Xfoo Xbar\n"

/-- The Stream ParseHeader yields on `fullHdrLine` (factors still 0: Open
sets them afterwards). -/
def fullHdrStream : Stream :=
  { width := 10, height := 20, frameRate := some ⟨25, 1⟩,
    interlacing := strBytes "p", sampleAspectRatio := some ⟨1, 1⟩,
    chroma := strBytes "422", metadata := [strBytes "foo", strBytes "bar"],
    xss := 0, yss := 0, originalHeader := fullHdrLine }

end Y4M

deriving instance DecidableEq for Except

namespace Y4M

/-!  Claim theorems. -/

/-- C1: CountFrames on a stream of two well-formed frames returns 2 and
restores the read position — but only on the success path.  On the error
exit taken for `badData444` the source returns without the restoring
seek: the position before the call is 21 (end of header) and the position
after is 38 (end of the pulled region), so the claim's "every exit path"
fails on the code exactly as §5 of the spec says the source's asymmetric
restore-on-error does. -/
theorem C1_countFrames_restore_asymmetry :
    countFrames stream444 ⟨goodData444, 21⟩ = (.ok 2, ⟨goodData444, 21⟩) ∧
    countFrames stream444 ⟨badData444, 21⟩
      = (.error (.frameMagicSkip (strBytes "GARBAGE_GARBAGE")), ⟨badData444, 38⟩) ∧
    (38 : Nat) ≠ 21 := by decide

/-- C4: a truncated final frame is reported as a clean end of stream.
At position 21 of `truncData444` a frame header is present (the remaining
bytes are exactly the "FRAME" line) and its 12 plane bytes are missing,
yet ParseFrame returns io.EOF — the clean end-of-stream signal — and
SkipFrame succeeds outright, seeking past EOF.  Only a short-but-nonempty
plane read (`partialData444`) gets the distinct io.ErrUnexpectedEOF. -/
theorem C4_truncation_reported_as_eof :
    remBytes ⟨truncData444, 21⟩ = strBytes "FRAME\n" ∧
    (parseFrame stream444 ⟨truncData444, 21⟩).1 = .error .eof ∧
    skipFrame stream444 ⟨truncData444, 21⟩ = (.ok (), ⟨truncData444, 39⟩) ∧
    (parseFrame stream444 ⟨partialData444, 21⟩).1 = .error .unexpectedEOF ∧
    Err.unexpectedEOF ≠ Err.eof := by decide

/-- C2 counterexample: Open succeeds on the unrecognized chroma tag "foo"
with both stored subsampling factors 0 — but ChromaPlaneSize on that
stream does not "evaluate to zero": it reaches the division by the zero
factors, a run-time panic (`none` in this embedding), not `some 0`. -/
theorem C2_counterexample :
    (openStream fooData).1 = .ok fooStream ∧
    fooStream.xss = 0 ∧ fooStream.yss = 0 ∧
    chromaPlaneSize fooStream = none ∧
    chromaPlaneSize fooStream ≠ some 0 := by decide

/-- C3 counterexample: on a line not beginning with the frame magic, both
SkipFrameHeader and ParseFrameHeader return before their restoring seek,
so the cursor (position 17 — the end of the pulled region) is not left at
the start of the attempted read (position 0); and ParseFrameHeader's
error does not name the bytes actually found. -/
theorem C3_counterexample :
    skipFrameHeader ⟨strBytes "XARBAGE_GARBAGE_\n", 0⟩
      = (.error (.frameMagicSkip (strBytes "XARBAGE_GARBAGE")), ⟨strBytes "XARBAGE_GARBAGE_\n", 17⟩) ∧
    parseFrameHeader ⟨strBytes "XARBAGE_GARBAGE_\n", 0⟩
      = (.error .frameMagicParse, ⟨strBytes "XARBAGE_GARBAGE_\n", 17⟩) ∧
    (17 : Nat) ≠ 0 := by decide

/-- C5 counterexample: the frame ParseFrame decodes from `data420`
satisfies the buffer-length invariant, and `Crop(3, 3, 0, 0)` on it
succeeds — but the cropped frame violates the invariant: its Cb and Cr
planes have 1 byte where ChromaPlaneSize for a 3-by-3 420jpeg frame is
`3*3/2/2 = 2` (the crop dimensions are not multiples of the subsampling
factors, which Crop does not require). -/
theorem C5_counterexample :
    (openStream data420).1 = .ok stream420 ∧
    parseFrame stream420 ⟨data420, 25⟩ = (.ok frame420, ⟨data420, 55⟩) ∧
    frameInvariant frame420 ∧
    crop frame420 3 3 0 0 = (none, frame420cropped) ∧
    ¬ frameInvariant frame420cropped := by decide

/-- C7 counterexample: the crop request `w=5, h=2, xOffset=-1, yOffset=0`
on the well-formed 4-by-2 chroma-444 frame satisfies the claim's
in-bounds conditions (`5 + (-1) ≤ 4`, `2 + 0 ≤ 2`) and the chroma is in
the subsampling table, yet Crop does not replace the planes: the first
luma row index is `-1` and the slice expression panics. -/
theorem C7_counterexample :
    frameInvariant frame444x42 ∧
    xFactorTab frame444x42.chroma ≠ 0 ∧
    (5 : Int) + (-1) ≤ frame444x42.width ∧
    (2 : Int) + 0 ≤ frame444x42.height ∧
    crop frame444x42 5 2 (-1) 0 = (some .panicSliceOOB, frame444x42) := by decide

/-- C9 counterexample: writing a header and one fully coherent 1-by-1
chroma-444alpha frame, then reopening the result, does not reproduce the
frame: "444alpha" is absent from the subsampling tables, so the reopened
stream has factors 0 and ParseFrame reaches the division by zero in
ChromaPlaneSize instead of returning a frame. -/
theorem C9_counterexample :
    (match openStream (writeFrameData alphaFrame
        (writeFrameHeader alphaFrame (writeHeader alphaOutStream ⟨[], 0⟩))).data with
      | (.ok s, fs) => (parseFrame s fs).1
      | (.error e, _) => .error e) = .error .panicDivZero := by decide

/-- C6: both crop bounds checks precede any mutation: whenever
`w + xOffset > Width` or `h + yOffset > Height`, Crop returns the
corresponding geometry error and the frame it leaves behind is exactly
the original. -/
theorem C6_crop_bounds_before_mutation (f : Frame) (w h xo yo : Int)
    (hviol : w + xo > f.width ∨ h + yo > f.height) :
    ((crop f w h xo yo).1 = some (.geomWidth (w + xo) f.width) ∨
     (crop f w h xo yo).1 = some (.geomHeight (h + yo) f.height)) ∧
    (crop f w h xo yo).2 = f := by
  unfold crop
  by_cases h1 : w + xo > f.width
  · simp [h1]
  · rcases hviol with hv | hv
    · exact absurd hv h1
    · simp [h1, hv]

/-- C6 witness: the concrete out-of-bounds request from the example
frame. -/
theorem C6_witness :
    ((crop frame444x42 5 2 2 0).1 = some (.geomWidth (5 + 2) frame444x42.width) ∨
     (crop frame444x42 5 2 2 0).1 = some (.geomHeight (2 + 0) frame444x42.height)) ∧
    (crop frame444x42 5 2 2 0).2 = frame444x42 :=
  C6_crop_bounds_before_mutation frame444x42 5 2 2 0 (Or.inl (by decide))

/-- C10: the subsampling tables omit the recognized tags "mono" and
"444alpha" (both factors 0); Crop on a frame with either tag reaches the
division by zero in its chroma index arithmetic `w/xss*h/yss` as soon as
the bounds checks and the luma copy pass (the luma plane already
replaced); ChromaPlaneSize reaches the division by zero for a "444alpha"
stream with the looked-up factors, while only "mono" is guarded to 0. -/
theorem C10_zero_factor_tags :
    (xFactorTab (strBytes "mono") = 0 ∧ yFactorTab (strBytes "mono") = 0 ∧
     xFactorTab (strBytes "444alpha") = 0 ∧ yFactorTab (strBytes "444alpha") = 0) ∧
    (∀ (f : Frame) (w h xo yo : Int) (newY : Bytes),
      (f.chroma = strBytes "mono" ∨ f.chroma = strBytes "444alpha") →
      ¬ w + xo > f.width → ¬ h + yo > f.height → ¬ w * h < 0 →
      cropLumaRows f.y f.width w xo yo h.toNat 0 = .ok newY →
      crop f w h xo yo = (some .panicDivZero, { f with y := newY })) ∧
    (∀ s : Stream, s.chroma = strBytes "444alpha" → s.xss = xFactorTab s.chroma →
      chromaPlaneSize s = none) ∧
    (∀ s : Stream, s.chroma = strBytes "mono" → chromaPlaneSize s = some 0) := by
  refine ⟨by decide, ?_, ?_, ?_⟩
  · intro f w h xo yo newY hc h1 h2 h3 hluma
    unfold crop
    rw [if_neg h1, if_neg h2, if_neg h3, hluma]
    rcases hc with hc | hc <;> simp [hc, xFactorTab, strBytes]
  · intro s hc hx
    unfold chromaPlaneSize
    rw [hc] at hx ⊢
    rw [if_neg (by decide : ¬ (strBytes "444alpha" = strBytes "mono")), if_pos (by rw [hx]; decide)]
  · intro s hc
    unfold chromaPlaneSize
    rw [hc, if_pos rfl]

/-- C10 witness: the mono 4-by-2 frame from the examples — an in-bounds
crop reaches the division by zero — and the concrete stream forms of the
ChromaPlaneSize facts. -/
theorem C10_witness :
    crop { frame444x42 with chroma := strBytes "mono" } 2 1 0 0
      = (some .panicDivZero, { frame444x42 with chroma := strBytes "mono", y := [0, 1] }) ∧
    chromaPlaneSize { fooStream with chroma := strBytes "444alpha" } = none ∧
    chromaPlaneSize { fooStream with chroma := strBytes "mono" } = some 0 := by
  refine ⟨?_, ?_, ?_⟩
  · exact C10_zero_factor_tags.2.1 _ 2 1 0 0 [0, 1] (Or.inl rfl)
      (by decide) (by decide) (by decide) (by decide)
  · exact C10_zero_factor_tags.2.2.1 _ rfl (by decide)
  · exact C10_zero_factor_tags.2.2.2 _ rfl

/-!  Decimal serialization round-trips (Header-then-ParseHeader needs
`Atoi (itoa n) = n`). -/

/-- Every byte `natDigitsRev` emits is an ASCII digit. -/
theorem natDigitsRev_digit : ∀ fuel n c, c ∈ natDigitsRev fuel n → 48 ≤ c ∧ c ≤ 57 := by
  intro fuel
  induction fuel with
  | zero => intro n c hc; simp [natDigitsRev] at hc
  | succ fuel ih =>
    intro n c hc
    unfold natDigitsRev at hc
    by_cases hn : n = 0
    · simp [hn] at hc
    · rw [if_neg hn] at hc
      rcases List.mem_cons.mp hc with h | h
      · subst h; have := Nat.mod_lt n (show 0 < 10 by omega); omega
      · exact ih _ _ h

/-- Folding the digit bytes back (least significant first) recovers the
number, for any sufficient fuel. -/
theorem foldr_natDigitsRev : ∀ fuel n, n ≤ fuel →
    (natDigitsRev fuel n).foldr (fun c a => a * 10 + (c - 48)) 0 = n := by
  intro fuel
  induction fuel with
  | zero => intro n h; interval_cases n; simp [natDigitsRev]
  | succ fuel ih =>
    intro n h
    unfold natDigitsRev
    by_cases hn : n = 0
    · simp [hn]
    · rw [if_neg hn]
      simp only [List.foldr_cons]
      have hdiv : n / 10 ≤ fuel := by
        have : n / 10 < n := Nat.div_lt_self (by omega) (by omega)
        omega
      rw [ih _ hdiv]
      have : 48 ≤ n % 10 + 48 := by omega
      have hmod := Nat.div_add_mod n 10
      omega

/-- digitsToNat undoes natDigits. -/
theorem digitsToNat_natDigits (n : Nat) : digitsToNat (natDigits n) = n := by
  unfold natDigits
  by_cases hn : n = 0
  · simp [hn, digitsToNat]
  · rw [if_neg hn]
    unfold digitsToNat
    rw [List.foldl_reverse]
    exact foldr_natDigitsRev n n (le_refl n)

/-- natDigits is never empty. -/
theorem natDigits_ne_nil (n : Nat) : natDigits n ≠ [] := by
  unfold natDigits
  by_cases hn : n = 0
  · simp [hn]
  · rw [if_neg hn]
    cases n with
    | zero => omega
    | succ m => simp [natDigitsRev]

/-- Every byte of natDigits is an ASCII digit. -/
theorem natDigits_digit (n : Nat) : ∀ c ∈ natDigits n, 48 ≤ c ∧ c ≤ 57 := by
  intro c hc
  unfold natDigits at hc
  by_cases hn : n = 0
  · simp [hn] at hc; omega
  · rw [if_neg hn] at hc
    exact natDigitsRev_digit n n c (List.mem_reverse.mp hc)

/-- atoiCore recovers the number natDigits wrote. -/
theorem atoiCore_natDigits (n : Nat) : atoiCore (natDigits n) = .ok n := by
  unfold atoiCore
  rw [if_pos, digitsToNat_natDigits]
  refine ⟨natDigits_ne_nil n, ?_⟩
  rw [List.all_eq_true]
  intro c hc
  have := natDigits_digit n c hc
  simp [isDigit]
  omega

/-- Every byte the "%d" serialization writes is a minus sign or a digit. -/
theorem itoa_bytes (n : Int) : ∀ c ∈ itoa n, c = 45 ∨ (48 ≤ c ∧ c ≤ 57) := by
  intro c hc
  unfold itoa at hc
  by_cases hn : n < 0
  · rw [if_pos hn] at hc
    rcases List.mem_cons.mp hc with h | h
    · exact Or.inl h
    · exact Or.inr (natDigits_digit _ c h)
  · rw [if_neg hn] at hc
    exact Or.inr (natDigits_digit _ c hc)

/-- Atoi undoes the "%d" serialization. -/
theorem atoi_itoa (n : Int) : atoi (itoa n) = .ok n := by
  unfold itoa
  by_cases hn : n < 0
  · rw [if_pos hn]
    have h1 : ((-n).toNat : Int) = -n := Int.toNat_of_nonneg (by omega)
    simp [atoi, atoiCore_natDigits, Except.map, h1]
  · rw [if_neg hn]
    obtain ⟨c, t, hct⟩ : ∃ c t, natDigits n.toNat = c :: t := by
      cases h : natDigits n.toNat with
      | nil => exact absurd h (natDigits_ne_nil _)
      | cons c t => exact ⟨c, t, rfl⟩
    have hdig : 48 ≤ c ∧ c ≤ 57 := natDigits_digit _ c (by rw [hct]; simp)
    have h1 : (n.toNat : Int) = n := Int.toNat_of_nonneg (by omega)
    rw [hct]
    simp [atoi, if_neg (show ¬ c = 45 by omega), if_neg (show ¬ c = 43 by omega),
      ← hct, atoiCore_natDigits, Except.map, h1]

/-- The "%d" bytes are whitespace-free. -/
theorem noSpace_itoa (n : Int) : noSpace (itoa n) := by
  intro c hc
  rcases itoa_bytes n c hc with h | h <;> simp [isSpace] <;> omega

/-- The "%d" bytes never contain a colon. -/
theorem itoa_ne_colon (n : Int) : ∀ c ∈ itoa n, c ≠ 58 := by
  intro c hc
  rcases itoa_bytes n c hc with h | h <;> omega

/-- strings.Split finds no separator in a separator-free string. -/
theorem splitOnByte_no_sep (sep : Nat) : ∀ b : Bytes, (∀ c ∈ b, c ≠ sep) → splitOnByte sep b = [b] := by
  intro b
  induction b with
  | nil => intro _; rfl
  | cons c rest ih =>
    intro h
    unfold splitOnByte
    rw [if_neg (h c (by simp)), ih fun x hx => h x (by simp [hx])]

/-- strings.Split around the first separator once the prefix is
separator-free. -/
theorem splitOnByte_append (sep : Nat) : ∀ (a b : Bytes), (∀ c ∈ a, c ≠ sep) →
    splitOnByte sep (a ++ sep :: b) = a :: splitOnByte sep b := by
  intro a
  induction a with
  | nil => intro b _; simp [splitOnByte]
  | cons c rest ih =>
    intro b h
    have hc : c ≠ sep := h c (by simp)
    simp only [List.cons_append]
    conv_lhs => unfold splitOnByte
    rw [if_neg hc, ih b fun x hx => h x (by simp [hx])]

/-- stringToRatio undoes the "N:D" serialization of a populated Ratio. -/
theorem stringToRatio_ratioBytes (r : Ratio ) :
    stringToRatio (ratioBytes (some r)) = .ok r := by
  unfold ratioBytes stringToRatio
  rw [splitOnByte_append 58 (itoa r.n) (itoa r.d) (itoa_ne_colon r.n),
    splitOnByte_no_sep 58 (itoa r.d) (itoa_ne_colon r.d)]
  simp [atoi_itoa]

/-!  bytes.Fields on serialized token lists. -/

/-- A space byte in front restarts token collection once the accumulator
is empty. -/
theorem fieldsAux_space (c : Nat) (r : Bytes) (hc : isSpace c = true) :
    fieldsAux (c :: r) [] = fieldsAux r [] := by
  conv_lhs => unfold fieldsAux
  rw [hc]
  simp

/-- Consuming one whitespace-free token up to a following space byte. -/
theorem fieldsAux_token : ∀ (t : Bytes) (c : Nat) (r acc : Bytes), t ≠ [] → noSpace t →
    isSpace c = true →
    fieldsAux (t ++ c :: r) acc = (acc.reverse ++ t) :: fieldsAux (c :: r) [] := by
  intro t
  induction t with
  | nil => intro c r acc h; exact absurd rfl h
  | cons x t ih =>
    intro c r acc _ hns hc
    have hx : isSpace x = false := hns x (by simp)
    by_cases ht : t = []
    · subst ht
      simp only [List.cons_append, List.nil_append]
      rw [fieldsAux_space c r hc]
      conv_lhs => unfold fieldsAux
      rw [hx]
      simp only [Bool.false_eq_true, if_false]
      conv_lhs => unfold fieldsAux
      rw [hc]
      simp
    · simp only [List.cons_append]
      conv_lhs => unfold fieldsAux
      rw [hx]
      simp only [Bool.false_eq_true, if_false]
      rw [ih c r (x :: acc) ht (fun y hy => hns y (by simp [hy])) hc]
      simp

/-- Fields of a flattened space-prefixed token list terminated by a
newline: exactly the tokens. -/
theorem fieldsAux_flat_tokens : ∀ toks : List Bytes, (∀ t ∈ toks, t ≠ [] ∧ noSpace t) →
    fieldsAux (toks.flatMap (32 :: ·) ++ [10]) [] = toks := by
  intro toks
  induction toks with
  | nil => intro _; rfl
  | cons t ts ih =>
    intro h
    have ht := h t (by simp)
    simp only [List.flatMap_cons, List.append_assoc, List.cons_append]
    rw [fieldsAux_space 32 _ (by decide)]
    have hsep : ∃ c r, ts.flatMap (32 :: ·) ++ [10] = c :: r ∧ isSpace c = true := by
      cases ts with
      | nil => exact ⟨10, [], by simp, by decide⟩
      | cons u us => exact ⟨32, u ++ (us.flatMap (32 :: ·) ++ [10]), by simp, by decide⟩
    obtain ⟨c, r, hcr, hc⟩ := hsep
    rw [hcr, fieldsAux_token t c r [] ht.1 ht.2 hc, ← hcr, ih fun x hx => h x (by simp [hx])]
    simp

/-- Fields of the serialized header line: the magic then the header
tokens, provided every token is nonempty and whitespace-free. -/
theorem fields_headerBytes (s : Stream)
    (h : ∀ t ∈ headerTokens s, t ≠ [] ∧ noSpace t) :
    fields (headerBytes s) = strBytes "YUV4MPEG2" :: headerTokens s := by
  unfold fields headerBytes
  have hsep : ∃ c r, (headerTokens s).flatMap (32 :: ·) ++ [10] = c :: r ∧ isSpace c = true := by
    cases hts : headerTokens s with
    | nil => exact ⟨10, [], by simp, by decide⟩
    | cons u us => exact ⟨32, u ++ (us.flatMap (32 :: ·) ++ [10]), by simp [hts], by decide⟩
  obtain ⟨c, r, hcr, hc⟩ := hsep
  rw [List.append_assoc, hcr,
    fieldsAux_token (strBytes "YUV4MPEG2") c r [] (by decide) (by decide) hc,
    ← hcr, fieldsAux_flat_tokens (headerTokens s) h]
  simp

/-- Every field `bytes.Fields` produces is nonempty and whitespace-free. -/
theorem fieldsAux_wf : ∀ (b acc : Bytes), (∀ c ∈ acc, isSpace c = false) →
    ∀ f ∈ fieldsAux b acc, f ≠ [] ∧ noSpace f := by
  intro b
  induction b with
  | nil =>
    intro acc hacc f hf
    unfold fieldsAux at hf
    by_cases h : acc = []
    · simp [h] at hf
    · rw [if_neg h] at hf
      simp at hf
      subst hf
      exact ⟨by simpa using h, fun c hc => hacc c (List.mem_reverse.mp hc)⟩
  | cons x r ih =>
    intro acc hacc f hf
    unfold fieldsAux at hf
    by_cases hx : isSpace x = true
    · rw [hx] at hf
      simp only [if_true] at hf
      by_cases h : acc = []
      · rw [if_pos h] at hf
        exact ih [] (by simp) f hf
      · rw [if_neg h] at hf
        rcases List.mem_cons.mp hf with h1 | h1
        · subst h1
          exact ⟨by simpa using h, fun c hc => hacc c (List.mem_reverse.mp hc)⟩
        · exact ih [] (by simp) f h1
    · have hx' : isSpace x = false := by simpa using hx
      rw [hx'] at hf
      simp only [Bool.false_eq_true, if_false] at hf
      refine ih (x :: acc) ?_ f hf
      intro c hc
      rcases List.mem_cons.mp hc with h1 | h1
      · subst h1; exact hx'
      · exact hacc c h1

/-- Every field of `fields b` is nonempty and whitespace-free. -/
theorem fields_wf (b : Bytes) : ∀ f ∈ fields b, f ≠ [] ∧ noSpace f :=
  fieldsAux_wf b [] (by simp)

/-!  The ParseHeader field loop on serialized tokens. -/

/-- Any token headed by 'Y' is ignored. -/
theorem applyField_Y (s : Stream) (v : Bytes) : applyField s (89 :: v) = .ok s := by
  simp [applyField]

/-- A serialized width token parses back. -/
theorem applyField_W (s : Stream) (n : Int) :
    applyField s (87 :: itoa n) = .ok { s with width := n } := by
  simp [applyField, atoi_itoa, Except.map]

/-- A serialized height token parses back. -/
theorem applyField_H (s : Stream) (n : Int) :
    applyField s (72 :: itoa n) = .ok { s with height := n } := by
  simp [applyField, atoi_itoa, Except.map]

/-- A serialized chroma token parses back. -/
theorem applyField_C (s : Stream) (v : Bytes) :
    applyField s (67 :: v) = .ok { s with chroma := v } := by
  simp [applyField]

/-- A serialized interlacing token parses back. -/
theorem applyField_I (s : Stream) (v : Bytes) :
    applyField s (73 :: v) = .ok { s with interlacing := v } := by
  simp [applyField]

/-- A serialized frame-rate token parses back. -/
theorem applyField_F (s : Stream) (r : Ratio ) :
    applyField s (70 :: ratioBytes (some r)) = .ok { s with frameRate := some r } := by
  simp [applyField, stringToRatio_ratioBytes, Except.map]

/-- A serialized aspect-ratio token parses back. -/
theorem applyField_A (s : Stream) (r : Ratio ) :
    applyField s (65 :: ratioBytes (some r)) = .ok { s with sampleAspectRatio := some r } := by
  simp [applyField, stringToRatio_ratioBytes, Except.map]

/-- A metadata token appends. -/
theorem applyField_X (s : Stream) (v : Bytes) :
    applyField s (88 :: v) = .ok { s with metadata := s.metadata ++ [v] } := by
  simp [applyField]

/-- One field-loop step whose field application succeeds. -/
theorem parseFields_cons_ok (f : Bytes) (fl : List Bytes) (s s' : Stream)
    (h : applyField s f = .ok s') : parseFields (f :: fl) s = parseFields fl s' := by
  conv_lhs => unfold parseFields
  rw [h]

/-- The field loop over the serialized metadata tokens appends them all
in order. -/
theorem parseFields_metaTokens : ∀ (ms : List Bytes) (s : Stream),
    parseFields (ms.map (88 :: ·)) s = .ok { s with metadata := s.metadata ++ ms } := by
  intro ms
  induction ms with
  | nil => intro s; simp [parseFields]
  | cons m ms ih =>
    intro s
    simp only [List.map_cons]
    rw [parseFields_cons_ok _ _ _ _ (applyField_X s m), ih]
    simp

/-- Every token Header() emits is nonempty and whitespace-free, given
whitespace-free string fields and populated ratio pointers. -/
theorem headerTokens_wf (s : Stream) (hC : noSpace s.chroma)
    (hI : noSpace s.interlacing) (hM : ∀ m ∈ s.metadata, noSpace m)
    (fr : Ratio ) (hfr : s.frameRate = some fr)
    (sa : Ratio ) (hsa : s.sampleAspectRatio = some sa) :
    ∀ t ∈ headerTokens s, t ≠ [] ∧ noSpace t := by
    intro t ht
    unfold headerTokens at ht
    simp only [List.mem_append, List.mem_cons, List.mem_map] at ht
    have hdig : ∀ (tag : Nat) (n : Int), isSpace tag = false → noSpace (tag :: itoa n) := by
      intro tag n htag c hc
      rcases List.mem_cons.mp hc with h | h
      · subst h; exact htag
      · exact noSpace_itoa n c h
    have hrat : ∀ (tag : Nat) (r : Ratio ), isSpace tag = false →
        noSpace (tag :: ratioBytes (some r)) := by
      intro tag r htag c hc
      rcases List.mem_cons.mp hc with h | h
      · subst h; exact htag
      · unfold ratioBytes at h
        rcases List.mem_append.mp h with h1 | h1
        · exact noSpace_itoa _ c h1
        · rcases List.mem_cons.mp h1 with h2 | h2
          · subst h2; decide
          · exact noSpace_itoa _ c h2
    rcases ht with (h | h | h | h | h | h | h) | ⟨m, hm, h⟩
    · subst h; exact ⟨by simp, hdig 87 s.width (by decide)⟩
    · subst h; exact ⟨by simp, hdig 72 s.height (by decide)⟩
    · subst h
      refine ⟨by simp, fun c hc => ?_⟩
      rcases List.mem_cons.mp hc with h1 | h1
      · subst h1; decide
      · exact hC c h1
    · subst h
      refine ⟨by simp, fun c hc => ?_⟩
      rcases List.mem_cons.mp hc with h1 | h1
      · subst h1; decide
      · exact hI c h1
    · subst h; rw [hfr]; exact ⟨by simp, hrat 70 fr (by decide)⟩
    · subst h; rw [hsa]; exact ⟨by simp, hrat 65 sa (by decide)⟩
    · exact absurd h (List.not_mem_nil t)
    · subst h
      refine ⟨by simp, fun c hc => ?_⟩
      rcases List.mem_cons.mp hc with h1 | h1
      · subst h1; decide
      · exact hM m hm c h1

/-- ParseHeader applied to the Header() serialization of a stream whose
string fields are whitespace-free tokens and whose ratio pointers are
populated: it succeeds, and every semantic field — width, height, chroma,
frame rate, sample aspect ratio, interlacing, metadata in order — comes
back equal (the re-parsed stream keeps the freshly stored original-header
bytes and zero subsampling factors, which Open recomputes). -/
theorem parseHeaderLine_headerBytes (s : Stream) (hC : noSpace s.chroma)
    (hI : noSpace s.interlacing) (hM : ∀ m ∈ s.metadata, noSpace m)
    (fr : Ratio ) (hfr : s.frameRate = some fr)
    (sa : Ratio ) (hsa : s.sampleAspectRatio = some sa) :
    parseHeaderLine (headerBytes s)
      = .ok { initStream (headerBytes s) with
              width := s.width, height := s.height, chroma := s.chroma,
              interlacing := s.interlacing, frameRate := s.frameRate,
              sampleAspectRatio := s.sampleAspectRatio, metadata := s.metadata } := by
  have htoks := headerTokens_wf s hC hI hM fr hfr sa hsa
  unfold parseHeaderLine
  rw [fields_headerBytes s htoks]
  have hmagic : strBytes "YUV4MPEG2" = 89 :: strBytes "UV4MPEG2" := by decide
  unfold headerTokens
  rw [hmagic, hfr, hsa]
  simp only [List.cons_append, List.nil_append]
  rw [parseFields_cons_ok _ _ _ _ (applyField_Y _ (strBytes "UV4MPEG2")),
    parseFields_cons_ok _ _ _ _ (applyField_W _ s.width),
    parseFields_cons_ok _ _ _ _ (applyField_H _ s.height),
    parseFields_cons_ok _ _ _ _ (applyField_C _ s.chroma),
    parseFields_cons_ok _ _ _ _ (applyField_I _ s.interlacing),
    parseFields_cons_ok _ _ _ _ (applyField_F _ fr),
    parseFields_cons_ok _ _ _ _ (applyField_A _ sa),
    parseFields_metaTokens]
  simp [hfr, hsa, initStream]

/-!  The header-parser invariant: every Stream the parser returns has
whitespace-free string fields and populated ratio pointers. -/

/-- The field dispatch written as one if-chain (the match head reduced). -/
theorem applyField_cons (s : Stream) (key : Nat) (val : Bytes) :
    applyField s (key :: val) =
      if key = 89 then .ok s
      else if key = 87 then (atoi val).map fun n => { s with width := n }
      else if key = 72 then (atoi val).map fun n => { s with height := n }
      else if key = 70 then (stringToRatio val).map fun r => { s with frameRate := some r }
      else if key = 73 then .ok { s with interlacing := val }
      else if key = 65 then (stringToRatio val).map fun r => { s with sampleAspectRatio := some r }
      else if key = 67 then .ok { s with chroma := val }
      else if key = 88 then .ok { s with metadata := s.metadata ++ [val] }
      else .error (.unrecognizedField key) := rfl

/-- One field application preserves the invariant. -/
theorem applyField_inv (s s' : Stream) (f : Bytes) (hs : hdrInv s)
    (hf : noSpace f) (h : applyField s f = .ok s') : hdrInv s' := by
  obtain ⟨hC, hI, hM, hfr, hsa⟩ := hs
  cases f with
  | nil => simp [applyField] at h
  | cons key val =>
    have hval : noSpace val := fun c hc => hf c (by simp [hc])
    rw [applyField_cons] at h
    split_ifs at h with h1 h2 h3 h4 h5 h6 h7 h8
    · cases h; exact ⟨hC, hI, hM, hfr, hsa⟩
    · cases hv : atoi val with
      | error e => rw [hv] at h; simp [Except.map] at h
      | ok n =>
        rw [hv] at h; simp only [Except.map] at h; cases h
        exact ⟨hC, hI, hM, hfr, hsa⟩
    · cases hv : atoi val with
      | error e => rw [hv] at h; simp [Except.map] at h
      | ok n =>
        rw [hv] at h; simp only [Except.map] at h; cases h
        exact ⟨hC, hI, hM, hfr, hsa⟩
    · cases hv : stringToRatio val with
      | error e => rw [hv] at h; simp [Except.map] at h
      | ok r =>
        rw [hv] at h; simp only [Except.map] at h; cases h
        exact ⟨hC, hI, hM, ⟨r, rfl⟩, hsa⟩
    · cases h; exact ⟨hC, hval, hM, hfr, hsa⟩
    · cases hv : stringToRatio val with
      | error e => rw [hv] at h; simp [Except.map] at h
      | ok r =>
        rw [hv] at h; simp only [Except.map] at h; cases h
        exact ⟨hC, hI, hM, hfr, ⟨r, rfl⟩⟩
    · cases h; exact ⟨hval, hI, hM, hfr, hsa⟩
    · cases h
      refine ⟨hC, hI, fun m hm => ?_, hfr, hsa⟩
      rcases List.mem_append.mp hm with h1 | h1
      · exact hM m h1
      · rw [List.mem_singleton.mp h1]; exact hval

/-- The whole field loop preserves the invariant. -/
theorem parseFields_inv : ∀ (fl : List Bytes) (s s' : Stream), hdrInv s →
    (∀ f ∈ fl, noSpace f) → parseFields fl s = .ok s' → hdrInv s' := by
  intro fl
  induction fl with
  | nil => intro s s' hs _ h; cases h; exact hs
  | cons f fl ih =>
    intro s s' hs hwf h
    unfold parseFields at h
    cases ha : applyField s f with
    | error e => rw [ha] at h; simp at h
    | ok s1 =>
      rw [ha] at h
      exact ih s1 s' (applyField_inv s s1 f hs (hwf f (by simp)) ha)
        (fun g hg => hwf g (by simp [hg])) h

/-- The parser's starting state satisfies the invariant. -/
theorem initStream_inv (line : Bytes) : hdrInv (initStream line) :=
  ⟨(by decide : noSpace (strBytes "420jpeg")), (by decide : noSpace (strBytes "?")),
   fun m hm => absurd hm (List.not_mem_nil m), ⟨⟨0, 0⟩, rfl⟩, ⟨⟨0, 0⟩, rfl⟩⟩

/-- C8: parsing a valid header line, serializing the parsed state with
Header(), and parsing the serialization again preserves every semantic
field — width, height, chroma, frame rate, sample aspect ratio,
interlacing, and the metadata entries in order — even though the
serialized bytes (and the stored original-header bytes) may differ from
the original input. -/
theorem C8_parse_serialize_parse (line : Bytes) (s : Stream)
    (h : parseHeaderLine line = .ok s) :
    ∃ s', parseHeaderLine (headerBytes s) = .ok s' ∧
      s'.width = s.width ∧ s'.height = s.height ∧ s'.chroma = s.chroma ∧
      s'.frameRate = s.frameRate ∧ s'.sampleAspectRatio = s.sampleAspectRatio ∧
      s'.interlacing = s.interlacing ∧ s'.metadata = s.metadata := by
  have hinv : hdrInv s :=
    parseFields_inv (fields line) (initStream line) s (initStream_inv line)
      (fun f hf => (fields_wf line f hf).2) h
  obtain ⟨hC, hI, hM, ⟨fr, hfr⟩, ⟨sa, hsa⟩⟩ := hinv
  exact ⟨_, parseHeaderLine_headerBytes s hC hI hM fr hfr sa hsa,
    rfl, rfl, rfl, rfl, rfl, rfl, rfl⟩

/-- C8 witness: the round trip at a concrete header line carrying every
field kind. -/
theorem C8_witness :
    ∃ s', parseHeaderLine (headerBytes fullHdrStream) = .ok s' ∧
      s'.width = fullHdrStream.width ∧ s'.height = fullHdrStream.height ∧
      s'.chroma = fullHdrStream.chroma ∧ s'.frameRate = fullHdrStream.frameRate ∧
      s'.sampleAspectRatio = fullHdrStream.sampleAspectRatio ∧
      s'.interlacing = fullHdrStream.interlacing ∧
      s'.metadata = fullHdrStream.metadata :=
  C8_parse_serialize_parse fullHdrLine fullHdrStream (by decide)

/-!  Open stores the table factors; unknown chroma tags store 0. -/

/-- A chroma tag with x-factor 0 also has y-factor 0 (the two tables have
the same key set). -/
theorem yFactorTab_eq_zero {c : Bytes} (h : xFactorTab c = 0) : yFactorTab c = 0 := by
  unfold xFactorTab at h
  unfold yFactorTab
  split_ifs at h ⊢ <;> omega

/-- A Stream returned by Open carries exactly the table lookups of its
chroma tag as subsampling factors. -/
theorem openStream_ok_factors (data : Bytes) (s : Stream) (fs1 : FS)
    (h : openStream data = (.ok s, fs1)) :
    s.xss = xFactorTab s.chroma ∧ s.yss = yFactorTab s.chroma := by
  unfold openStream at h
  by_cases h1 : data = []
  · rw [if_pos h1] at h; simp at h
  · rw [if_neg h1] at h
    by_cases h2 : data.take 9 ++ List.replicate (9 - (data.take 9).length) 0 ≠ strBytes "YUV4MPEG2"
    · rw [if_pos h2] at h; simp at h
    · rw [if_neg h2] at h
      rcases hp : parseHeader ⟨data, 0⟩ with ⟨res, fsp⟩
      rw [hp] at h
      cases res with
      | error e => simp at h
      | ok s0 =>
        simp only [Prod.mk.injEq, Except.ok.injEq] at h
        obtain ⟨hse, -⟩ := h
        subst hse
        exact ⟨rfl, rfl⟩

/-- C2 amended: Open tolerates a chroma tag outside the subsampling
tables — it succeeds and stores factor 0 for both axes — but a later
chroma-plane-size computation on such a stream does not evaluate to 0: it
reaches the division by the zero factors, a run-time panic, for every
such tag except "mono", whose early guard alone returns 0. -/
theorem C2_amended (data : Bytes) (s : Stream) (fs1 : FS)
    (h : openStream data = (.ok s, fs1)) (hx : xFactorTab s.chroma = 0) :
    s.xss = 0 ∧ s.yss = 0 ∧
    (s.chroma = strBytes "mono" → chromaPlaneSize s = some 0) ∧
    (s.chroma ≠ strBytes "mono" → chromaPlaneSize s = none) := by
  obtain ⟨hxs, hys⟩ := openStream_ok_factors data s fs1 h
  have hx0 : s.xss = 0 := hxs.trans hx
  have hy0 : s.yss = 0 := hys.trans (yFactorTab_eq_zero hx)
  refine ⟨hx0, hy0, fun hm => ?_, fun hm => ?_⟩
  · unfold chromaPlaneSize
    rw [if_pos hm]
  · unfold chromaPlaneSize
    rw [if_neg hm, if_pos hx0]

/-- C2 witness: the concrete "Cfoo" stream. -/
theorem C2_witness :
    fooStream.xss = 0 ∧ fooStream.yss = 0 ∧
    (fooStream.chroma = strBytes "mono" → chromaPlaneSize fooStream = some 0) ∧
    (fooStream.chroma ≠ strBytes "mono" → chromaPlaneSize fooStream = none) :=
  C2_amended fooData fooStream ⟨fooData, 21⟩ (by decide) (by decide)

/-!  Reading one line: where the buffered reader leaves the cursor. -/

/-- The first newline of `core ++ 10 :: rest` sits right after `core`. -/
theorem findIdx_first_newline : ∀ (core rest : Bytes), (∀ c ∈ core, c ≠ 10) →
    List.findIdx? (· == 10) (core ++ 10 :: rest) = some core.length := by
  intro core
  induction core with
  | nil => intro rest h; simp [List.findIdx?_cons]
  | cons x core ih =>
    intro rest h
    have hx : (x == 10) = false := by simpa using h x (by simp)
    simp [List.findIdx?_cons, hx, ih rest fun c hc => h c (by simp [hc])]

/-- ReadBytes on a cursor whose remaining bytes start with one full line:
the line comes back, and the cursor advances past the pulled region. -/
theorem bufReadLine_line (fs : FS) (core rest : Bytes)
    (hrem : remBytes fs = core ++ 10 :: rest) (hno : ∀ c ∈ core, c ≠ 10) :
    bufReadLine fs = (core ++ [10], true,
      { fs with pos := fs.pos + pulledLen (core ++ 10 :: rest) }) := by
  unfold bufReadLine
  rw [hrem, findIdx_first_newline core rest hno]
  have ht : (core ++ 10 :: rest).take (core.length + 1) = core ++ [10] := by
    rw [List.take_append 1]
    rfl
  show ((core ++ 10 :: rest).take (core.length + 1), true,
      { fs with pos := fs.pos + pulledLen (core ++ 10 :: rest) })
    = (core ++ [10], true, { fs with pos := fs.pos + pulledLen (core ++ 10 :: rest) })
  rw [ht]

/-- C3 amended: a line that does not begin with the frame magic makes
SkipFrameHeader fail with the error quoting the first 15 bytes of the
line (when the line has at least 15 bytes; a shorter line panics on the
`b[0:15]` slice), and makes ParseFrameHeader fail with a FormatError that
does not carry the offending bytes; on both error paths the restoring
seek is skipped, so the cursor ends past the whole pulled region (at most
4096 bytes per fill) rather than at the start of the attempted read. -/
theorem C3_amended :
    (∀ (fs : FS) (core rest : Bytes), remBytes fs = core ++ 10 :: rest →
      (∀ c ∈ core, c ≠ 10) → (core ++ [10]).take 5 ≠ strBytes "FRAME" →
      15 ≤ core.length + 1 →
      skipFrameHeader fs = (.error (.frameMagicSkip ((core ++ [10]).take 15)),
        { fs with pos := fs.pos + pulledLen (core ++ 10 :: rest) })) ∧
    (∀ (fs : FS) (core rest t : Bytes) (ts : List Bytes), remBytes fs = core ++ 10 :: rest →
      (∀ c ∈ core, c ≠ 10) → fields (core ++ [10]) = t :: ts → t ≠ strBytes "FRAME" →
      parseFrameHeader fs = (.error .frameMagicParse,
        { fs with pos := fs.pos + pulledLen (core ++ 10 :: rest) })) := by
  constructor
  · intro fs core rest hrem hno hmag hlen
    have h5 : ¬ (core ++ [10]).length < 5 := by simp; omega
    have h15 : ¬ (core ++ [10]).length < 15 := by simp; omega
    unfold skipFrameHeader
    rw [bufReadLine_line fs core rest hrem hno]
    simp only [Bool.not_true, Bool.false_eq_true, if_false, if_neg h5, if_neg hmag, if_neg h15]
  · intro fs core rest t ts hrem hno hfields ht
    have hline : parseFrameHeaderLine (core ++ [10]) = .error .frameMagicParse := by
      unfold parseFrameHeaderLine
      rw [hfields]
      show (if t = strBytes "FRAME" then
          parseFrameFields ts { magicString := t, i := none, metadata := [], raw := core ++ [10] }
        else .error .frameMagicParse) = .error .frameMagicParse
      rw [if_neg ht]
    unfold parseFrameHeader
    rw [bufReadLine_line fs core rest hrem hno]
    simp only [Bool.not_true, Bool.false_eq_true, if_false, hline]

/-- C3 witness: the amended statement at the concrete garbage line. -/
theorem C3_witness :
    skipFrameHeader ⟨strBytes "WARBAGE_GARBAGE_\n", 0⟩
      = (.error (.frameMagicSkip ((strBytes "WARBAGE_GARBAGE_" ++ [10]).take 15)),
        { data := strBytes "WARBAGE_GARBAGE_\n", pos := 0 + pulledLen (strBytes "WARBAGE_GARBAGE_" ++ 10 :: []) }) ∧
    parseFrameHeader ⟨strBytes "WARBAGE_GARBAGE_\n", 0⟩
      = (.error .frameMagicParse,
        { data := strBytes "WARBAGE_GARBAGE_\n", pos := 0 + pulledLen (strBytes "WARBAGE_GARBAGE_" ++ 10 :: []) }) := by
  constructor
  · exact C3_amended.1 ⟨strBytes "WARBAGE_GARBAGE_\n", 0⟩ (strBytes "WARBAGE_GARBAGE_") []
      (by decide) (by decide) (by decide) (by decide)
  · exact C3_amended.2 ⟨strBytes "WARBAGE_GARBAGE_\n", 0⟩ (strBytes "WARBAGE_GARBAGE_") []
      (strBytes "WARBAGE_GARBAGE_") [] (by decide) (by decide) (by decide) (by decide)

/-!  Integer-division facts for the crop geometry (all operands in crop's
successful runs are nonnegative, where Go's truncated division agrees
with Euclidean division). -/

/-- Floor division is superadditive on nonnegative numerators. -/
theorem ediv_add_ediv_le (a b n : Int) (hn : 0 < n) : a / n + b / n ≤ (a + b) / n := by
  rw [Int.le_ediv_iff_mul_le hn]
  have h1 : a / n * n ≤ a := Int.ediv_mul_le a (by omega)
  have h2 : b / n * n ≤ b := Int.ediv_mul_le b (by omega)
  calc (a / n + b / n) * n = a / n * n + b / n * n := by ring
    _ ≤ a + b := add_le_add h1 h2

/-- Multiplying after the division by a nonnegative factor stays below
dividing the product. -/
theorem ediv_mul_le_mul_ediv (a w n : Int) (hw : 0 ≤ w) (hn : 0 < n) :
    a / n * w ≤ a * w / n := by
  rw [Int.le_ediv_iff_mul_le hn]
  have h1 : a / n * n ≤ a := Int.ediv_mul_le a (by omega)
  calc a / n * w * n = a / n * n * w := by ring
    _ ≤ a * w := mul_le_mul_of_nonneg_right h1 hw

/-- Iterated Euclidean division of nonnegative numbers multiplies the
divisors. -/
theorem ediv_ediv (a b c : Int) (ha : 0 ≤ a) (hb : 0 ≤ b) (hc : 0 ≤ c) :
    a / b / c = a / (b * c) := by
  obtain ⟨m, rfl⟩ := Int.eq_ofNat_of_zero_le ha
  obtain ⟨p, rfl⟩ := Int.eq_ofNat_of_zero_le hb
  obtain ⟨q, rfl⟩ := Int.eq_ofNat_of_zero_le hc
  exact_mod_cast congrArg (Nat.cast : Nat → Int) (Nat.div_div_eq_div_mul m p q)

/-!  Crop's slice and row-copy loops. -/

/-- Inversion of a successful Go slice expression: the bounds were valid
and the slice has length `b - a`. -/
theorem goSlice_ok (l : Bytes) (a b : Int) (out : Bytes) (h : goSlice l a b = .ok out) :
    0 ≤ a ∧ a ≤ b ∧ b ≤ (l.length : Int) ∧ (out.length : Int) = b - a ∧
      out = (l.drop a.toNat).take (b - a).toNat := by
  unfold goSlice at h
  split_ifs at h with hc
  cases h
  obtain ⟨h1, h2, h3⟩ := hc
  refine ⟨h1, h2, h3, ?_, ?_⟩
  · simp [List.length_drop, List.length_take]
    omega
  · rw [List.drop_take]
    congr 1
    omega

/-- Introduction for a valid Go slice expression. -/
theorem goSlice_valid (l : Bytes) (a b : Int) (h1 : 0 ≤ a) (h2 : a ≤ b)
    (h3 : b ≤ (l.length : Int)) :
    goSlice l a b = .ok ((l.drop a.toNat).take (b - a).toNat) := by
  unfold goSlice
  rw [if_pos ⟨h1, h2, h3⟩, List.drop_take]
  congr 2
  omega

/-- A successful luma/alpha row loop copied `n` rows of `w` bytes. -/
theorem cropLumaRows_length : ∀ (src : Bytes) (width w xo yo : Int) (n : Nat) (y0 : Int)
    (out : Bytes), cropLumaRows src width w xo yo n y0 = .ok out →
    out.length = n * w.toNat := by
  intro src width w xo yo n
  induction n with
  | zero => intro y0 out h; cases h; simp
  | succ n ih =>
    intro y0 out h
    unfold cropLumaRows at h
    cases hs : goSlice src ((y0 + yo) * width + xo) ((y0 + yo) * width + xo + w) with
    | error e => rw [hs] at h; simp at h
    | ok row =>
      rw [hs] at h
      cases hr : cropLumaRows src width w xo yo n (y0 + 1) with
      | error e => rw [hr] at h; simp at h
      | ok rest =>
        rw [hr] at h
        simp only [Except.ok.injEq] at h
        subst h
        obtain ⟨ha, hab, hb, hlen, -⟩ := goSlice_ok _ _ _ _ hs
        have : row.length = w.toNat := by omega
        simp [this, ih _ _ hr, Nat.succ_mul]
        omega

/-- A successful chroma row loop copied `n` rows of `w/xss` bytes. -/
theorem cropChromaRows_length : ∀ (src : Bytes) (width xss yss w xo yo : Int) (n : Nat)
    (y0 : Int) (out : Bytes), cropChromaRows src width xss yss w xo yo n y0 = .ok out →
    out.length = n * (w.tdiv xss).toNat := by
  intro src width xss yss w xo yo n
  induction n with
  | zero => intro y0 out h; cases h; simp
  | succ n ih =>
    intro y0 out h
    unfold cropChromaRows at h
    cases hs : goSlice src (((y0 + yo.tdiv yss) * width).tdiv xss + xo.tdiv xss)
        (((y0 + yo.tdiv yss) * width).tdiv xss + xo.tdiv xss + w.tdiv xss) with
    | error e => rw [hs] at h; simp at h
    | ok row =>
      rw [hs] at h
      cases hr : cropChromaRows src width xss yss w xo yo n (y0 + 1) with
      | error e => rw [hr] at h; simp at h
      | ok rest =>
        rw [hr] at h
        simp only [Except.ok.injEq] at h
        subst h
        obtain ⟨ha, hab, hb, hlen, -⟩ := goSlice_ok _ _ _ _ hs
        have : row.length = (w.tdiv xss).toNat := by omega
        simp [this, ih _ _ hr, Nat.succ_mul]
        omega

/-- Introduction for one row slice `l[a : a+w]`. -/
theorem goSlice_row (l : Bytes) (a w : Int) (ha : 0 ≤ a) (hw : 0 ≤ w)
    (h3 : a + w ≤ (l.length : Int)) :
    goSlice l a (a + w) = .ok ((l.drop a.toNat).take w.toNat) := by
  rw [goSlice_valid l a (a + w) ha (by omega) h3, show a + w - a = w by ring]

/-- The luma row loop succeeds and produces the spec's rows whenever the
row segments stay inside the source buffer. -/
theorem cropLumaRows_spec : ∀ (src : Bytes) (width w xo yo : Int) (n : Nat) (y0 : Int),
    0 ≤ w →
    (∀ i : Nat, i < n → 0 ≤ (y0 + i + yo) * width + xo ∧
      (y0 + i + yo) * width + xo + w ≤ (src.length : Int)) →
    cropLumaRows src width w xo yo n y0
      = .ok (cropRowsSpecAux src width w xo yo n y0) := by
  intro src width w xo yo n
  induction n with
  | zero => intro y0 _ _; rfl
  | succ n ih =>
    intro y0 hw hbound
    have h00 := hbound 0 (Nat.succ_pos n)
    have h0a : 0 ≤ (y0 + yo) * width + xo := by simpa using h00.1
    have h0b : (y0 + yo) * width + xo + w ≤ (src.length : Int) := by simpa using h00.2
    have hrec : cropLumaRows src width w xo yo n (y0 + 1)
        = .ok (cropRowsSpecAux src width w xo yo n (y0 + 1)) := by
      refine ih (y0 + 1) hw fun i hi => ?_
      have hb := hbound (i + 1) (by omega)
      have harg : (y0 + 1 + (i : Int) + yo) = (y0 + ((i : Int) + 1) + yo) := by ring
      have hcast : ((i + 1 : Nat) : Int) = (i : Int) + 1 := by push_cast; ring
      rw [harg, ← hcast]
      exact hb
    unfold cropLumaRows cropRowsSpecAux
    rw [goSlice_row src _ w h0a hw h0b, hrec]

/-- The chroma row loop succeeds whenever its row segments stay inside
the source buffer. -/
theorem cropChromaRows_spec : ∀ (src : Bytes) (width xss yss w xo yo : Int) (n : Nat)
    (y0 : Int), 0 ≤ w.tdiv xss →
    (∀ i : Nat, i < n → 0 ≤ ((y0 + i + yo.tdiv yss) * width).tdiv xss + xo.tdiv xss ∧
      ((y0 + i + yo.tdiv yss) * width).tdiv xss + xo.tdiv xss + w.tdiv xss
        ≤ (src.length : Int)) →
    ∃ out, cropChromaRows src width xss yss w xo yo n y0 = .ok out := by
  intro src width xss yss w xo yo n
  induction n with
  | zero => intro y0 _ _; exact ⟨[], rfl⟩
  | succ n ih =>
    intro y0 hw hbound
    have h00 := hbound 0 (Nat.succ_pos n)
    have h0a : 0 ≤ ((y0 + yo.tdiv yss) * width).tdiv xss + xo.tdiv xss := by
      simpa using h00.1
    have h0b : ((y0 + yo.tdiv yss) * width).tdiv xss + xo.tdiv xss + w.tdiv xss
        ≤ (src.length : Int) := by
      simpa using h00.2
    obtain ⟨rest, hrest⟩ : ∃ out, cropChromaRows src width xss yss w xo yo n (y0 + 1) = .ok out := by
      refine ih (y0 + 1) hw fun i hi => ?_
      have hb := hbound (i + 1) (by omega)
      have harg : (y0 + 1 + (i : Int) + yo.tdiv yss) = (y0 + ((i : Int) + 1) + yo.tdiv yss) := by
        ring
      have hcast : ((i + 1 : Nat) : Int) = (i : Int) + 1 := by push_cast; ring
      rw [harg, ← hcast]
      exact hb
    refine ⟨(src.drop (((y0 + yo.tdiv yss) * width).tdiv xss + xo.tdiv xss).toNat).take
        (w.tdiv xss).toNat ++ rest, ?_⟩
    unfold cropChromaRows
    rw [goSlice_row src _ _ h0a hw h0b, hrest]

/-- A chroma tag with a nonzero x-factor has positive factors on both
axes and is neither "mono" nor "444alpha". -/
theorem factorTab_pos {c : Bytes} (h : xFactorTab c ≠ 0) :
    0 < xFactorTab c ∧ 0 < yFactorTab c ∧ c ≠ strBytes "mono" ∧ c ≠ strBytes "444alpha" := by
  by_cases hm : c = strBytes "mono"
  · subst hm; exact absurd (by decide) h
  by_cases ha : c = strBytes "444alpha"
  · subst ha; exact absurd (by decide) h
  refine ⟨?_, ?_, hm, ha⟩
  · unfold xFactorTab at h ⊢
    split_ifs at h ⊢ <;> omega
  · unfold xFactorTab at h
    unfold yFactorTab
    split_ifs at h ⊢ <;> omega

/-- Row bounds of the luma/alpha copy: with nonnegative in-bounds crop
parameters every row segment of the loop stays inside a buffer of the
invariant's luma size. -/
theorem luma_row_bound (W H w xo yo : Int) (i : Nat)
    (hw : 0 ≤ w) (hxo : 0 ≤ xo) (hyo : 0 ≤ yo) (hW : 0 ≤ W)
    (hbw : w + xo ≤ W) (hbh : (i : Int) + 1 + yo ≤ H) :
    0 ≤ ((0 : Int) + i + yo) * W + xo ∧ ((0 : Int) + i + yo) * W + xo + w ≤ H * W := by
  constructor
  · have : (0 : Int) ≤ ((0 : Int) + i + yo) * W :=
      mul_nonneg (by positivity) hW
    omega
  · have h1 : ((i : Int) + 1 + yo) * W ≤ H * W := mul_le_mul_of_nonneg_right hbh hW
    nlinarith [Int.natCast_nonneg i]

/-- Row bounds of the chroma copy: with positive factors and nonnegative
in-bounds parameters every chroma row segment stays inside a buffer of
the invariant's chroma size (stated in Euclidean division, which agrees
with Go's truncated division on these nonnegative operands). -/
theorem chroma_row_bound (W H w xo x y yt : Int)
    (hx : 0 < x) (hy : 0 < y) (hw : 0 ≤ w) (hxo : 0 ≤ xo) (hyt : 0 ≤ yt)
    (hW : 0 ≤ W) (hH : 0 ≤ H) (hbw : w + xo ≤ W) (hyt1 : yt + 1 ≤ H / y) :
    0 ≤ yt * W / x + xo / x ∧ yt * W / x + xo / x + w / x ≤ W * H / x / y := by
  have hA : 0 ≤ yt * W / x := Int.ediv_nonneg (mul_nonneg hyt hW) (by omega)
  have hB : 0 ≤ xo / x := Int.ediv_nonneg hxo (by omega)
  refine ⟨by omega, ?_⟩
  have s1 : xo / x + w / x ≤ (xo + w) / x := ediv_add_ediv_le xo w x hx
  have s2 : yt * W / x + (xo + w) / x ≤ (yt * W + (xo + w)) / x := ediv_add_ediv_le _ _ x hx
  have s3 : (yt * W + (xo + w)) / x ≤ ((yt + 1) * W) / x := by
    apply Int.ediv_le_ediv hx
    nlinarith
  have s4 : ((yt + 1) * W) / x ≤ (H / y * W) / x := by
    apply Int.ediv_le_ediv hx
    exact mul_le_mul_of_nonneg_right hyt1 hW
  have s5 : (H / y * W) / x ≤ (H * W / y) / x := by
    apply Int.ediv_le_ediv hx
    exact ediv_mul_le_mul_ediv H W y hW hy
  have s6 : (H * W / y) / x = W * H / x / y := by
    rw [ediv_ediv (H * W) y x (mul_nonneg hH hW) (by omega) (by omega),
      ediv_ediv (W * H) x y (mul_nonneg hW hH) (by omega) (by omega),
      mul_comm H W, mul_comm y x]
  linarith

/-- A successful Crop run characterized: on a frame satisfying the
buffer-length invariant with no alpha plane, a chroma tag from the
subsampling table, and nonnegative in-bounds parameters, Crop succeeds,
replaces the luma plane with exactly the spec's rows, rebuilds the two
chroma planes with `h/yss` rows of `w/xss` bytes, and updates width and
height. -/
theorem crop_ok (f : Frame) (w h xo yo : Int)
    (hinv : frameInvariant f) (halpha : f.alpha = [])
    (hfac : xFactorTab f.chroma ≠ 0)
    (hw : 0 ≤ w) (hh : 0 ≤ h) (hxo : 0 ≤ xo) (hyo : 0 ≤ yo)
    (hbw : w + xo ≤ f.width) (hbh : h + yo ≤ f.height) :
    ∃ newCb newCr,
      crop f w h xo yo
        = (none,
          { f with
              y := cropRowsSpec f.y f.width w xo yo h.toNat,
              cb := newCb, cr := newCr, width := w, height := h }) ∧
      newCb.length = (h.tdiv (yFactorTab f.chroma)).toNat * (w.tdiv (xFactorTab f.chroma)).toNat ∧
      newCr.length = (h.tdiv (yFactorTab f.chroma)).toNat * (w.tdiv (xFactorTab f.chroma)).toNat := by
  obtain ⟨hxpos, hypos, hmono, h444⟩ := factorTab_pos hfac
  set xF := xFactorTab f.chroma with hxFdef
  set yF := yFactorTab f.chroma with hyFdef
  have hyF0 : yF ≠ 0 := by omega
  have hW : 0 ≤ f.width := by linarith
  have hH : 0 ≤ f.height := by linarith
  have hY : (f.y.length : Int) = f.height * f.width := hinv.1
  have tde : ∀ (a b : Int), 0 ≤ a → 0 < b → a.tdiv b = a / b :=
    fun a b ha hb => Int.tdiv_eq_ediv ha (by omega)
  have hyo' : yo.tdiv yF = yo / yF := tde _ _ hyo hypos
  have hw' : w.tdiv xF = w / xF := tde _ _ hw hxpos
  have hxo' : xo.tdiv xF = xo / xF := tde _ _ hxo hxpos
  have hh' : h.tdiv yF = h / yF := tde _ _ hh hypos
  have hWH : (f.width * f.height).tdiv xF = f.width * f.height / xF :=
    tde _ _ (mul_nonneg hW hH) hxpos
  have hCb : ((f.width * f.height).tdiv xF).tdiv yF = (f.cb.length : Int) := by
    have h2 := hinv.2.1
    unfold chromaSizeOf at h2
    rw [if_neg hmono, if_neg hfac, if_neg hyF0] at h2
    simpa using h2
  have hCr : ((f.width * f.height).tdiv xF).tdiv yF = (f.cr.length : Int) := by
    have h2 := hinv.2.2.1
    unfold chromaSizeOf at h2
    rw [if_neg hmono, if_neg hfac, if_neg hyF0] at h2
    simpa using h2
  have hCb' : f.width * f.height / xF / yF = (f.cb.length : Int) := by
    rw [← hCb, hWH, tde _ _ (Int.ediv_nonneg (mul_nonneg hW hH) (by omega)) hypos]
  have hCr' : f.width * f.height / xF / yF = (f.cr.length : Int) := by
    rw [← hCr, hWH, tde _ _ (Int.ediv_nonneg (mul_nonneg hW hH) (by omega)) hypos]
  have hluma : cropLumaRows f.y f.width w xo yo h.toNat 0
      = .ok (cropRowsSpecAux f.y f.width w xo yo h.toNat 0) := by
    apply cropLumaRows_spec f.y f.width w xo yo h.toNat 0 hw
    intro i hi
    have hi1 : (i : Int) + 1 ≤ h := by
      have h1 : (i : Int) < ((h.toNat : Nat) : Int) := by exact_mod_cast hi
      rw [Int.toNat_of_nonneg hh] at h1
      omega
    have hb := luma_row_bound f.width f.height w xo yo i hw hxo hyo hW hbw (by linarith)
    exact ⟨hb.1, by rw [hY]; exact hb.2⟩
  have hchromaBound : ∀ (src : Bytes), (src.length : Int) = f.cb.length →
      ∀ i : Nat, i < (h.tdiv yF).toNat →
      0 ≤ ((0 + (i : Int) + yo.tdiv yF) * f.width).tdiv xF + xo.tdiv xF ∧
      ((0 + (i : Int) + yo.tdiv yF) * f.width).tdiv xF + xo.tdiv xF + w.tdiv xF
        ≤ (src.length : Int) := by
    intro src hsrc i hi
    have hyoq : 0 ≤ yo / yF := Int.ediv_nonneg hyo (by omega)
    have hyt : 0 ≤ (0 : Int) + (i : Int) + yo / yF := by positivity
    have hio : (i : Int) + 1 ≤ h / yF := by
      have h1 : (i : Int) < (((h.tdiv yF).toNat : Nat) : Int) := by exact_mod_cast hi
      rw [Int.toNat_of_nonneg (by rw [hh']; exact Int.ediv_nonneg hh (by omega))] at h1
      rw [hh'] at h1
      omega
    have hyt1 : ((0 : Int) + (i : Int) + yo / yF) + 1 ≤ f.height / yF := by
      have q1 : h / yF + yo / yF ≤ (h + yo) / yF := ediv_add_ediv_le h yo yF hypos
      have q2 : (h + yo) / yF ≤ f.height / yF := Int.ediv_le_ediv hypos hbh
      linarith
    have hmul : 0 ≤ ((0 : Int) + (i : Int) + yo / yF) * f.width := mul_nonneg hyt hW
    have hb := chroma_row_bound f.width f.height w xo xF yF ((0 : Int) + (i : Int) + yo / yF)
      hxpos hypos hw hxo hyt hW hH hbw hyt1
    rw [hyo', hxo', hw', tde _ _ hmul hxpos, hsrc, ← hCb']
    exact hb
  obtain ⟨newCb, hcbok⟩ := cropChromaRows_spec f.cb f.width xF yF w xo yo (h.tdiv yF).toNat 0
    (by rw [hw']; exact Int.ediv_nonneg hw (by omega)) (hchromaBound f.cb rfl)
  obtain ⟨newCr, hcrok⟩ := cropChromaRows_spec f.cr f.width xF yF w xo yo (h.tdiv yF).toNat 0
    (by rw [hw']; exact Int.ediv_nonneg hw (by omega))
    (hchromaBound f.cr (hCr'.symm.trans hCb'))
  refine ⟨newCb, newCr, ?_,
    cropChromaRows_length _ _ _ _ _ _ _ _ _ _ hcbok,
    cropChromaRows_length _ _ _ _ _ _ _ _ _ _ hcrok⟩
  unfold crop
  rw [if_neg (by omega : ¬ w + xo > f.width), if_neg (by omega : ¬ h + yo > f.height),
    if_neg (not_lt.mpr (mul_nonneg hw hh)), hluma, ← hxFdef, ← hyFdef]
  simp [hfac, hyF0, hcbok, hcrok, halpha, cropRowsSpec]

/-- C7 amended: an in-bounds crop request with nonnegative parameters on
a well-formed frame (buffer-length invariant, empty alpha) whose chroma
is in the subsampling table succeeds and replaces the luma plane with `h`
rows of `w` bytes, output row `y` sourced from source row `y + yOffset`
starting at column `xOffset` with the pre-crop width as stride, updating
width and height; in particular cropping the 4-by-2 chroma-444 frame with
`Y = [0..7]` by `w=2, h=1, xOffset=1, yOffset=0` yields `Y = [1, 2]`.
(The claim's unrestricted version fails for negative offsets, which pass
its in-bounds conditions yet panic — see the counterexample.) -/
theorem C7_amended :
    (∀ (f : Frame) (w h xo yo : Int), frameInvariant f → f.alpha = [] →
      xFactorTab f.chroma ≠ 0 → 0 ≤ w → 0 ≤ h → 0 ≤ xo → 0 ≤ yo →
      w + xo ≤ f.width → h + yo ≤ f.height →
      ∃ f', crop f w h xo yo = (none, f') ∧
        f'.y = cropRowsSpec f.y f.width w xo yo h.toNat ∧
        f'.width = w ∧ f'.height = h ∧ f'.alpha = f.alpha ∧ f'.chroma = f.chroma) ∧
    crop frame444x42 2 1 1 0
      = (none,
        { frame444x42 with
            y := [1, 2], cb := [11, 12], cr := [21, 22], width := 2, height := 1 }) := by
  constructor
  · intro f w h xo yo hinv halpha hfac hw hh hxo hyo hbw hbh
    obtain ⟨newCb, newCr, heq, -, -⟩ :=
      crop_ok f w h xo yo hinv halpha hfac hw hh hxo hyo hbw hbh
    rw [heq]
    exact ⟨_, rfl, rfl, rfl, rfl, rfl, rfl⟩
  · decide

/-- C7 witness: the amended statement applied at the concrete example
crop. -/
theorem C7_witness :
    ∃ f', crop frame444x42 2 1 1 0 = (none, f') ∧
      f'.y = cropRowsSpec frame444x42.y frame444x42.width 2 1 0 (1 : Int).toNat ∧
      f'.width = 2 ∧ f'.height = 1 ∧ f'.alpha = frame444x42.alpha ∧
      f'.chroma = frame444x42.chroma :=
  C7_amended.1 frame444x42 2 1 1 0 (by decide) (by decide) (by decide) (by decide)
    (by decide) (by decide) (by decide) (by decide) (by decide)

/-!  Inversion of a successful Crop and the ParseFrame invariant. -/

/-- What a successful Crop of an alpha-free frame must have done. -/
theorem crop_none_inv (f f' : Frame) (w h xo yo : Int) (halpha : f.alpha = [])
    (hc : crop f w h xo yo = (none, f')) :
    ∃ newY newCb newCr,
      cropLumaRows f.y f.width w xo yo h.toNat 0 = .ok newY ∧
      cropChromaRows f.cb f.width (xFactorTab f.chroma) (yFactorTab f.chroma) w xo yo
        (h.tdiv (yFactorTab f.chroma)).toNat 0 = .ok newCb ∧
      cropChromaRows f.cr f.width (xFactorTab f.chroma) (yFactorTab f.chroma) w xo yo
        (h.tdiv (yFactorTab f.chroma)).toNat 0 = .ok newCr ∧
      xFactorTab f.chroma ≠ 0 ∧ yFactorTab f.chroma ≠ 0 ∧ ¬ w * h < 0 ∧
      f' = { f with y := newY, cb := newCb, cr := newCr, width := w, height := h } := by
  unfold crop at hc
  by_cases h1 : w + xo > f.width
  · rw [if_pos h1] at hc; simp at hc
  rw [if_neg h1] at hc
  by_cases h2 : h + yo > f.height
  · rw [if_pos h2] at hc; simp at hc
  rw [if_neg h2] at hc
  by_cases h3 : w * h < 0
  · rw [if_pos h3] at hc; simp at hc
  rw [if_neg h3] at hc
  cases hl : cropLumaRows f.y f.width w xo yo h.toNat 0 with
  | error e => rw [hl] at hc; simp at hc
  | ok newY =>
    rw [hl] at hc
    simp only [] at hc
    by_cases hz : xFactorTab f.chroma = 0 ∨ yFactorTab f.chroma = 0
    · rw [if_pos hz] at hc; simp at hc
    rw [if_neg hz] at hc
    push_neg at hz
    cases hcb : cropChromaRows f.cb f.width (xFactorTab f.chroma) (yFactorTab f.chroma)
        w xo yo (h.tdiv (yFactorTab f.chroma)).toNat 0 with
    | error e => rw [hcb] at hc; simp at hc
    | ok newCb =>
      rw [hcb] at hc
      simp only [] at hc
      cases hcr : cropChromaRows f.cr f.width (xFactorTab f.chroma) (yFactorTab f.chroma)
          w xo yo (h.tdiv (yFactorTab f.chroma)).toNat 0 with
      | error e => rw [hcr] at hc; simp at hc
      | ok newCr =>
        rw [hcr] at hc
        simp only [] at hc
        rw [if_neg (by simp [halpha])] at hc
        simp only [Prod.mk.injEq] at hc
        exact ⟨newY, newCb, newCr, rfl, rfl, rfl, hz.1, hz.2, h3, hc.2.symm⟩

/-- Inversion of a successful grabPlane: the buffer has exactly the
requested (nonnegative) size. -/
theorem grabPlane_ok_length (fs fs' : FS) (size : Int) (pl : Bytes)
    (h : grabPlane fs size = (.ok pl, fs')) : (pl.length : Int) = size := by
  unfold grabPlane at h
  split_ifs at h with h1 h2 h3 h4
  · simp only [Prod.mk.injEq, Except.ok.injEq] at h
    rw [← h.1]
    simpa using h1.symm
  · simp at h
  · simp at h
  · simp at h
  · simp only [Prod.mk.injEq, Except.ok.injEq] at h
    rw [← h.1]
    simp only [List.length_take]
    omega

/-- ChromaPlaneSize through a stream whose stored factors are the table
lookups of its chroma is the frame-level chroma geometry. -/
theorem chromaPlaneSize_eq_sizeOf (s : Stream) (hx : s.xss = xFactorTab s.chroma)
    (hy : s.yss = yFactorTab s.chroma) :
    chromaPlaneSize s = chromaSizeOf s.width s.height s.chroma := by
  unfold chromaPlaneSize chromaSizeOf
  rw [hx, hy]

/-- Every frame ParseFrame returns on a factor-consistent stream
satisfies the buffer-length invariant. -/
theorem parseFrame_invariant (s : Stream) (fs fs' : FS) (f : Frame)
    (hx : s.xss = xFactorTab s.chroma) (hy : s.yss = yFactorTab s.chroma)
    (h : parseFrame s fs = (.ok f, fs')) : frameInvariant f := by
  unfold parseFrame at h
  rcases hph : parseFrameHeader fs with ⟨rh, fs1⟩
  rw [hph] at h
  cases rh with
  | error e => simp at h
  | ok hd =>
    simp only [] at h
    rcases hg1 : grabPlane fs1 (lumaPlaneSize s) with ⟨r1, fs2⟩
    rw [hg1] at h
    cases r1 with
    | error e => simp at h
    | ok yb =>
      simp only [] at h
      cases hcs : chromaPlaneSize s with
      | none => rw [hcs] at h; simp at h
      | some cs =>
        rw [hcs] at h
        simp only [] at h
        rcases hg2 : grabPlane fs2 cs with ⟨r2, fs3⟩
        rw [hg2] at h
        cases r2 with
        | error e => simp at h
        | ok cbb =>
          simp only [] at h
          rcases hg3 : grabPlane fs3 cs with ⟨r3, fs4⟩
          rw [hg3] at h
          cases r3 with
          | error e => simp at h
          | ok crb =>
            simp only [] at h
            rcases hg4 : grabPlane fs4 (alphaPlaneSize s) with ⟨r4, fs5⟩
            rw [hg4] at h
            cases r4 with
            | error e => simp at h
            | ok ab =>
              simp only [Prod.mk.injEq, Except.ok.injEq] at h
              obtain ⟨hf, -⟩ := h
              subst hf
              have hcs' : chromaSizeOf s.width s.height s.chroma = some cs := by
                rw [← chromaPlaneSize_eq_sizeOf s hx hy]; exact hcs
              refine ⟨grabPlane_ok_length _ _ _ _ hg1, ?_, ?_,
                grabPlane_ok_length _ _ _ _ hg4⟩
              · rw [hcs', grabPlane_ok_length _ _ _ _ hg2]
              · rw [hcs', grabPlane_ok_length _ _ _ _ hg3]

/-- C5 amended: every frame ParseFrame produces on a stream whose stored
subsampling factors are the table lookups of its chroma satisfies the
buffer-length invariant; and the invariant is re-established by a
successful Crop of an alpha-free frame whose nonnegative crop dimensions
are multiples of the subsampling factors.  (Without the divisibility the
invariant breaks — see the counterexample — and with negative dimensions
a "successful" crop leaves positive plane sizes over empty buffers.) -/
theorem C5_amended :
    (∀ (s : Stream) (fs fs' : FS) (f : Frame), s.xss = xFactorTab s.chroma →
      s.yss = yFactorTab s.chroma → parseFrame s fs = (.ok f, fs') → frameInvariant f) ∧
    (∀ (f f' : Frame) (w h xo yo : Int), frameInvariant f → f.alpha = [] →
      0 ≤ w → 0 ≤ h → xFactorTab f.chroma ∣ w → yFactorTab f.chroma ∣ h →
      crop f w h xo yo = (none, f') → frameInvariant f') := by
  constructor
  · exact fun s fs fs' f hx hy h => parseFrame_invariant s fs fs' f hx hy h
  · intro f f' w h xo yo hinv halpha hw hh hdw hdh hc
    obtain ⟨newY, newCb, newCr, hl, hcb, hcr, hx0, hy0, hwh, hf'⟩ :=
      crop_none_inv f f' w h xo yo halpha hc
    obtain ⟨hxpos, hypos, hmono, h444⟩ := factorTab_pos hx0
    obtain ⟨a, ha⟩ := hdw
    obtain ⟨b, hb⟩ := hdh
    have hxF := (rfl : xFactorTab f.chroma = xFactorTab f.chroma)
    have ha0 : 0 ≤ a := by nlinarith
    have hb0 : 0 ≤ b := by nlinarith
    have hYlen : newY.length = h.toNat * w.toNat := cropLumaRows_length _ _ _ _ _ _ _ _ hl
    have hCbLen : newCb.length
        = (h.tdiv (yFactorTab f.chroma)).toNat * (w.tdiv (xFactorTab f.chroma)).toNat :=
      cropChromaRows_length _ _ _ _ _ _ _ _ _ _ hcb
    have hCrLen : newCr.length
        = (h.tdiv (yFactorTab f.chroma)).toNat * (w.tdiv (xFactorTab f.chroma)).toNat :=
      cropChromaRows_length _ _ _ _ _ _ _ _ _ _ hcr
    have hwx : w.tdiv (xFactorTab f.chroma) = a := by
      rw [ha, Int.mul_tdiv_cancel_left a hx0]
    have hhy : h.tdiv (yFactorTab f.chroma) = b := by
      rw [hb, Int.mul_tdiv_cancel_left b hy0]
    have hsize : ((w * h).tdiv (xFactorTab f.chroma)).tdiv (yFactorTab f.chroma) = a * b := by
      have e1 : w * h = xFactorTab f.chroma * (a * (yFactorTab f.chroma * b)) := by
        rw [ha, hb]; ring
      rw [e1, Int.mul_tdiv_cancel_left _ hx0,
        show a * (yFactorTab f.chroma * b) = yFactorTab f.chroma * (a * b) by ring,
        Int.mul_tdiv_cancel_left _ hy0]
    subst hf'
    refine ⟨?_, ?_, ?_, ?_⟩
    · show ((newY.length : Nat) : Int) = lumaSizeOf w h
      rw [hYlen]
      unfold lumaSizeOf
      push_cast [Int.toNat_of_nonneg hw, Int.toNat_of_nonneg hh]
      ring
    · show chromaSizeOf w h f.chroma = some ((newCb.length : Nat) : Int)
      unfold chromaSizeOf
      rw [if_neg hmono, if_neg hx0, if_neg hy0, hsize, hCbLen, hwx, hhy]
      congr 1
      push_cast [Int.toNat_of_nonneg ha0, Int.toNat_of_nonneg hb0]
      ring
    · show chromaSizeOf w h f.chroma = some ((newCr.length : Nat) : Int)
      unfold chromaSizeOf
      rw [if_neg hmono, if_neg hx0, if_neg hy0, hsize, hCrLen, hwx, hhy]
      congr 1
      push_cast [Int.toNat_of_nonneg ha0, Int.toNat_of_nonneg hb0]
      ring
    · show ((f.alpha.length : Nat) : Int) = alphaSizeOf w h f.chroma
      rw [halpha]
      unfold alphaSizeOf
      rw [if_neg h444]
      simp

/-!  Reading back a freshly written container (the C9 round trip). -/

/-- ParseHeader on a file whose first line is a well-formed header line. -/
theorem parseHeader_ok (fs : FS) (core rest : Bytes) (s : Stream)
    (hdata : fs.data = core ++ 10 :: rest) (hno : ∀ c ∈ core, c ≠ 10)
    (hline : parseHeaderLine (core ++ [10]) = .ok s) :
    parseHeader fs = (.ok s, { fs with pos := core.length + 1 }) := by
  unfold parseHeader
  rw [bufReadLine_line { fs with pos := 0 } core rest (by simpa [remBytes] using hdata) hno]
  simp only [Bool.not_true, Bool.false_eq_true, if_false, hline]
  simp

/-- Open on a file whose first line is a well-formed header line starting
with the stream magic. -/
theorem openStream_ok (data core rest : Bytes) (s0 : Stream)
    (hdata : data = core ++ 10 :: rest) (hno : ∀ c ∈ core, c ≠ 10)
    (hmagic : data.take 9 = strBytes "YUV4MPEG2") (hnine : 9 ≤ data.length)
    (hline : parseHeaderLine (core ++ [10]) = .ok s0) :
    openStream data
      = (.ok { s0 with xss := xFactorTab s0.chroma, yss := yFactorTab s0.chroma },
        ⟨data, core.length + 1⟩) := by
  unfold openStream
  rw [if_neg (by rintro rfl; simp at hnine)]
  rw [if_neg (by rw [hmagic]; decide)]
  rw [parseHeader_ok ⟨data, 0⟩ core rest s0 hdata hno hline]

/-- ParseFrameHeader on a cursor whose remaining bytes start with a
well-formed frame-header line. -/
theorem parseFrameHeader_ok (fs : FS) (core rest : Bytes) (fh : FrameHeader)
    (hrem : remBytes fs = core ++ 10 :: rest) (hno : ∀ c ∈ core, c ≠ 10)
    (hline : parseFrameHeaderLine (core ++ [10]) = .ok fh) :
    parseFrameHeader fs = (.ok fh, { fs with pos := fs.pos + (core.length + 1) }) := by
  unfold parseFrameHeader
  rw [bufReadLine_line fs core rest hrem hno]
  simp only [Bool.not_true, Bool.false_eq_true, if_false, hline]
  simp

/-- grabPlane reads exactly the plane bytes lying at the cursor. -/
theorem grabPlane_exact (D : Bytes) (p : Nat) (pl post : Bytes) (size : Int)
    (hdrop : D.drop p = pl ++ post) (hsize : size = (pl.length : Int)) :
    grabPlane ⟨D, p⟩ size = (.ok pl, ⟨D, p + pl.length⟩) := by
  subst hsize
  have hrem : remBytes ⟨D, p⟩ = pl ++ post := hdrop
  rcases hpl : pl with _ | ⟨c, t⟩
  · unfold grabPlane
    rw [if_pos (by simp)]
    simp
  · rw [hpl] at hrem
    unfold grabPlane
    rw [hrem]
    rw [if_neg (by simp only [List.length_cons]; omega),
      if_neg (by simp only [List.length_cons]; omega),
      if_neg (by simp),
      if_neg (by simp only [Int.toNat_natCast, List.length_append, List.length_cons]; omega)]
    simp only [Int.toNat_natCast]
    rw [List.take_left]

/-- Dropping a whole line (its terminating newline included) from a byte
list that starts with it. -/
theorem drop_after_line (a b : Bytes) (x : Nat) :
    (a ++ x :: b).drop (a.length + 1) = b := by
  have h1 : a ++ x :: b = (a ++ [x]) ++ b := by simp
  have h2 : a.length + 1 = (a ++ [x]).length := by simp
  rw [h1, h2, List.drop_left]

/-- ParseFrame on a cursor at which exactly one well-formed frame —
header line, then the planes Y, Cb, Cr back to back, no alpha bytes —
remains, for a stream whose plane sizes equal the plane lengths. -/
theorem parseFrame_exact (s' : Stream) (D rawCore y cb cr : Bytes) (p : Nat)
    (fh : FrameHeader)
    (hdrop : D.drop p = rawCore ++ 10 :: (y ++ (cb ++ cr)))
    (hrawno : ∀ c ∈ rawCore, c ≠ 10)
    (hfh : parseFrameHeaderLine (rawCore ++ [10]) = .ok fh)
    (hluma : lumaPlaneSize s' = (y.length : Int))
    (hchroma : chromaPlaneSize s' = some ((cb.length : Int)))
    (hcrlen : cr.length = cb.length)
    (halpha : alphaPlaneSize s' = 0) :
    parseFrame s' ⟨D, p⟩
      = (.ok { header := fh, width := s'.width, height := s'.height,
               chroma := s'.chroma, y := y, cb := cb, cr := cr, alpha := [] },
         ⟨D, p + (rawCore.length + 1) + y.length + cb.length + cr.length⟩) := by
  have h1 := parseFrameHeader_ok ⟨D, p⟩ rawCore (y ++ (cb ++ cr)) fh hdrop hrawno hfh
  have hd2 : D.drop (p + (rawCore.length + 1)) = y ++ (cb ++ cr) := by
    rw [← List.drop_drop, hdrop, drop_after_line]
  have hd3 : D.drop (p + (rawCore.length + 1) + y.length) = cb ++ cr := by
    rw [← List.drop_drop, hd2, List.drop_left]
  have hd4 : D.drop (p + (rawCore.length + 1) + y.length + cb.length) = cr := by
    rw [← List.drop_drop, hd3, List.drop_left]
  have h2 := grabPlane_exact D (p + (rawCore.length + 1)) y (cb ++ cr)
    (lumaPlaneSize s') hd2 hluma
  have h3 := grabPlane_exact D (p + (rawCore.length + 1) + y.length) cb cr
    ((cb.length : Int)) hd3 rfl
  have h4 : grabPlane ⟨D, p + (rawCore.length + 1) + y.length + cb.length⟩
      ((cb.length : Int))
      = (.ok cr, ⟨D, p + (rawCore.length + 1) + y.length + cb.length + cr.length⟩) := by
    apply grabPlane_exact D (p + (rawCore.length + 1) + y.length + cb.length) cr []
    · rw [hd4]; simp
    · rw [hcrlen]
  have h5 : grabPlane ⟨D, p + (rawCore.length + 1) + y.length + cb.length + cr.length⟩
      (alphaPlaneSize s')
      = (.ok [], ⟨D, p + (rawCore.length + 1) + y.length + cb.length + cr.length⟩) := by
    rw [halpha]
    unfold grabPlane
    rw [if_pos rfl]
  unfold parseFrame
  rw [h1]
  simp only []
  rw [h2]
  simp only []
  rw [hchroma]
  simp only []
  rw [h3]
  simp only []
  rw [h4]
  simp only []
  rw [h5]

/-- The serialized header line has no interior newline. -/
theorem headerBytes_core_no_newline (s : Stream)
    (htoks : ∀ t ∈ headerTokens s, noSpace t) :
    ∀ c ∈ strBytes "YUV4MPEG2" ++ (headerTokens s).flatMap (32 :: ·), c ≠ 10 := by
  intro c hc
  rcases List.mem_append.mp hc with h | h
  · rintro rfl; revert h; decide
  · rcases List.mem_flatMap.mp h with ⟨t, ht, hct⟩
    rcases List.mem_cons.mp hct with h1 | h1
    · subst h1; decide
    · intro h10
      subst h10
      have := htoks t ht 10 h1
      simp [isSpace] at this

/-- C5 witness: the invariant holds for the decoded 4-by-4 420jpeg frame
and for its subsampling-aligned 2-by-2 crop. -/
theorem C5_witness :
    frameInvariant frame420 ∧ frameInvariant frame420c22 := by
  constructor
  · exact C5_amended.1 stream420 ⟨data420, 25⟩ ⟨data420, 55⟩ frame420
      (by decide) (by decide) (by decide)
  · exact C5_amended.2 frame420 frame420c22 2 2 0 0 (by decide) (by decide)
      (by decide) (by decide) (by decide) (by decide) (by decide)

/-- C9 (amended): writing a stream header with WriteHeader and one frame —
its raw frame-header bytes via WriteFrameHeader and its planes via
WriteFrameData — to a fresh output container, then reopening the result
and parsing one frame, reproduces identical width, height, chroma tag and
plane byte contents, PROVIDED the written pieces are coherent: the
stream's string fields are whitespace-free and its ratio pointers
populated (Header() would panic on nil), the frame's raw header bytes are
one newline-terminated line that ParseFrameHeader accepts, the frame's
geometry matches the stream's, the plane buffer lengths equal the plane
sizes for that geometry — in particular the chroma tag has nonzero table
factors or is "mono" — and the alpha plane is empty (a chroma "444alpha"
frame, the one case with alpha bytes, cannot survive the trip: see the
counterexample). -/
theorem C9_amended (s : Stream) (f : Frame) (fr sa : Ratio ) (rawCore : Bytes)
    (fh : FrameHeader)
    (hC : noSpace s.chroma) (hI : noSpace s.interlacing)
    (hM : ∀ m ∈ s.metadata, noSpace m)
    (hfr : s.frameRate = some fr) (hsa : s.sampleAspectRatio = some sa)
    (hraw : f.header.raw = rawCore ++ [10]) (hrawno : ∀ c ∈ rawCore, c ≠ 10)
    (hfh : parseFrameHeaderLine f.header.raw = .ok fh)
    (hw : f.width = s.width) (hh : f.height = s.height) (hc : f.chroma = s.chroma)
    (hy : ((f.y.length : Nat) : Int) = s.height * s.width)
    (hcb : chromaSizeOf s.width s.height s.chroma = some ((f.cb.length : Nat) : Int))
    (hcr : chromaSizeOf s.width s.height s.chroma = some ((f.cr.length : Nat) : Int))
    (halpha : f.alpha = []) :
    ∃ s2 fs1 f2 fs2,
      openStream (writeFrameData f (writeFrameHeader f (writeHeader s ⟨[], 0⟩))).data
        = (.ok s2, fs1) ∧
      parseFrame s2 fs1 = (.ok f2, fs2) ∧
      f2.width = f.width ∧ f2.height = f.height ∧ f2.chroma = f.chroma ∧
      f2.y = f.y ∧ f2.cb = f.cb ∧ f2.cr = f.cr ∧ f2.alpha = f.alpha := by
  have hD : (writeFrameData f (writeFrameHeader f (writeHeader s ⟨[], 0⟩))).data
      = headerCore s ++ 10 :: (f.header.raw ++ (f.y ++ (f.cb ++ f.cr))) := by
    simp [writeFrameData, writeFrameHeader, writeHeader, writeBytes, headerBytes,
      headerCore, halpha, List.append_assoc]
  have htoks := headerTokens_wf s hC hI hM fr hfr sa hsa
  have hno : ∀ c ∈ headerCore s, c ≠ 10 :=
    headerBytes_core_no_newline s (fun t ht => (htoks t ht).2)
  have hmagic : (writeFrameData f (writeFrameHeader f (writeHeader s ⟨[], 0⟩))).data.take 9
      = strBytes "YUV4MPEG2" := by
    rw [hD]
    unfold headerCore
    rw [List.append_assoc]
    have h9 : (9 : Nat) = (strBytes "YUV4MPEG2").length := by decide
    rw [h9, List.take_left]
  have hnine : 9 ≤ (writeFrameData f (writeFrameHeader f (writeHeader s ⟨[], 0⟩))).data.length := by
    rw [hD]
    unfold headerCore
    simp only [List.length_append, List.length_cons]
    have h9 : (strBytes "YUV4MPEG2").length = 9 := by decide
    omega
  have hline := parseHeaderLine_headerBytes s hC hI hM fr hfr sa hsa
  have hopen := openStream_ok
    (writeFrameData f (writeFrameHeader f (writeHeader s ⟨[], 0⟩))).data
    (headerCore s) (f.header.raw ++ (f.y ++ (f.cb ++ f.cr)))
    _ hD hno hmagic hnine hline
  obtain ⟨S2, hSw, hSh, hSc, hSx, hSy, hopen2⟩ :
      ∃ S2, S2.width = s.width ∧ S2.height = s.height ∧ S2.chroma = s.chroma ∧
        S2.xss = xFactorTab s.chroma ∧ S2.yss = yFactorTab s.chroma ∧
        openStream (writeFrameData f (writeFrameHeader f (writeHeader s ⟨[], 0⟩))).data
          = (.ok S2,
            ⟨(writeFrameData f (writeFrameHeader f (writeHeader s ⟨[], 0⟩))).data,
              (headerCore s).length + 1⟩) :=
    ⟨_, rfl, rfl, rfl, rfl, rfl, hopen⟩
  have hdrop1 : (writeFrameData f (writeFrameHeader f (writeHeader s ⟨[], 0⟩))).data.drop
      ((headerCore s).length + 1) = rawCore ++ 10 :: (f.y ++ (f.cb ++ f.cr)) := by
    rw [hD, drop_after_line, hraw]
    simp
  have hfh2 : parseFrameHeaderLine (rawCore ++ [10]) = .ok fh := by
    rw [← hraw]; exact hfh
  have hluma2 : lumaPlaneSize S2 = ((f.y.length : Nat) : Int) := by
    unfold lumaPlaneSize
    rw [hSh, hSw]
    exact hy.symm
  have hchroma2 : chromaPlaneSize S2 = some ((f.cb.length : Nat) : Int) := by
    rw [chromaPlaneSize_eq_sizeOf S2 (by rw [hSx, hSc]) (by rw [hSy, hSc]),
      hSw, hSh, hSc]
    exact hcb
  have hlen2 : f.cr.length = f.cb.length := by
    have h11 := hcb.symm.trans hcr
    simp only [Option.some.injEq, Nat.cast_inj] at h11
    omega
  have hne : s.chroma ≠ strBytes "444alpha" := by
    intro heq
    rw [heq] at hcb
    have hnone : chromaSizeOf s.width s.height (strBytes "444alpha") = none := by
      unfold chromaSizeOf
      rw [if_neg (by decide), if_pos (by decide)]
    rw [hnone] at hcb
    exact Option.noConfusion hcb
  have halpha2 : alphaPlaneSize S2 = 0 := by
    unfold alphaPlaneSize
    rw [hSc, if_neg hne]
  have hpf := parseFrame_exact S2
    (writeFrameData f (writeFrameHeader f (writeHeader s ⟨[], 0⟩))).data
    rawCore f.y f.cb f.cr ((headerCore s).length + 1) fh
    hdrop1 hrawno hfh2 hluma2 hchroma2 hlen2 halpha2
  refine ⟨S2, _, _, _, hopen2, hpf, ?_, ?_, ?_, rfl, rfl, rfl, ?_⟩
  · show S2.width = f.width
    rw [hSw, hw]
  · show S2.height = f.height
    rw [hSh, hh]
  · show S2.chroma = f.chroma
    rw [hSc, hc]
  · show ([] : Bytes) = f.alpha
    rw [halpha]

/-- C9 witness: the 2-by-1 chroma-444 frame `outFrame444` written after
the header of `outStream444` survives the write/reopen/parse round trip. -/
theorem C9_witness :
    ∃ s2 fs1 f2 fs2,
      openStream (writeFrameData outFrame444
          (writeFrameHeader outFrame444 (writeHeader outStream444 ⟨[], 0⟩))).data
        = (.ok s2, fs1) ∧
      parseFrame s2 fs1 = (.ok f2, fs2) ∧
      f2.width = outFrame444.width ∧ f2.height = outFrame444.height ∧
      f2.chroma = outFrame444.chroma ∧ f2.y = outFrame444.y ∧
      f2.cb = outFrame444.cb ∧ f2.cr = outFrame444.cr ∧
      f2.alpha = outFrame444.alpha :=
  C9_amended outStream444 outFrame444 ⟨25, 1⟩ ⟨0, 0⟩ (strBytes "FRAME")
    plainFrameHeader (by decide) (by decide) (by decide) (by decide) (by decide)
    (by decide) (by decide) (by decide) (by decide) (by decide) (by decide)
    (by decide) (by decide) (by decide) (by decide)

end Y4M
